import Mathlib

/-! RF69 radio driver (`rf69.cpp`): shallow embedding and verified properties

The driver talks to the radio chip over an SPI bus.  The embedding keeps the
bus level of the source: `digitalWrite(SS, LOW/HIGH)` and `SPI.transfer` are
operations on a bus state that carries the chip and a log of everything that
crossed the bus.  The chip is an arbitrary machine (`Chip σ`); a concrete
register-file simulation (`simChip`) is used where a property is stated
against a simulated chip.

Conventions.
* `uint8_t` values are natural numbers; a value is reduced `% 256` wherever the
  source converts to `uint8_t` (function parameters, `SPI.transfer`).
* Pointers to caller-owned byte buffers are lists; `p[i]` is `p.getD i 0`.
* A polling loop without a bound takes a `fuel` argument that counts the
  iterations it may still execute; a run that needs one more iteration than it
  has ends in `Outcome.spin` with the bus state reached so far.
* `SPI.begin`, `SPI.beginTransaction` and `SPI.endTransaction` configure the
  host side only and exchange nothing with the chip; they have no counterpart.
-/

namespace RF69

/-! ## Register numbers and modes (rf69.cpp lines 15-42) -/

@[simp] def RF69_REG_FIFO : Nat := 0x00
@[simp] def RF69_REG_OPMODE : Nat := 0x01
@[simp] def RF69_REG_DATAMODUL : Nat := 0x02
@[simp] def RF69_REG_BITRATE_MSB : Nat := 0x03
@[simp] def RF69_REG_BITRATE_LSB : Nat := 0x04
@[simp] def RF69_REG_FDEV_MSB : Nat := 0x05
@[simp] def RF69_REG_FDEV_LSB : Nat := 0x06
@[simp] def RF69_REG_FRF_MSB : Nat := 0x07
@[simp] def RF69_REG_FRF_MID : Nat := 0x08
@[simp] def RF69_REG_FRF_LSB : Nat := 0x09
@[simp] def RF69_REG_RXBW : Nat := 0x19
@[simp] def RF69_REG_IRQFLAGS1 : Nat := 0x27
@[simp] def RF69_REG_IRQFLAGS2 : Nat := 0x28
@[simp] def RF69_REG_PREAMBLE_LSB : Nat := 0x2d
@[simp] def RF69_REG_SYNCCONFIG : Nat := 0x2e
@[simp] def RF69_REG_SYNCVALUE1 : Nat := 0x2f
@[simp] def RF69_REG_PACKETCONFIG1 : Nat := 0x37
@[simp] def RF69_REG_PAYLOADLENGTH : Nat := 0x38
@[simp] def RF69_REG_FIFOTHRESH : Nat := 0x3c

@[simp] def RF69_MODE_STANDBY : Nat := 0x04
@[simp] def RF69_MODE_TRANSMIT : Nat := 0x0C
@[simp] def RF69_MODE_RECEIVE : Nat := 0x10

/-! ## The bus -/

/-- One chip-select bracket: the (byte sent, byte received) pairs exchanged
between SS going low and SS going high, in order. -/
abbrev Txn := List (Nat × Nat)

/-- A device on the SPI bus: what it does when selected, when a byte is
clocked through it (it answers with a byte), and when released. -/
structure Chip (σ : Type) where
  select : σ → σ
  transfer : σ → Nat → σ × Nat
  release : σ → σ

/-- Bus state: the chip, the bytes of the bracket that is currently open, and
the completed brackets, oldest first. -/
structure Bus (σ : Type) where
  chip : σ
  cur : Txn
  log : List Txn
deriving DecidableEq

/-- Result of a driver call that contains an unbounded polling loop: `done s`
when the call returned with the bus in state `s`, `spin s` when a loop still
had to iterate after its fuel was used up, the bus then being in state `s`. -/
inductive Outcome (σ : Type) where
  | done (s : Bus σ)
  | spin (s : Bus σ)
deriving DecidableEq

/-- The bus state an outcome ends in. -/
def Outcome.bus {σ : Type} : Outcome σ → Bus σ
  | .done s => s
  | .spin s => s

/-- `digitalWrite(SS, LOW)`: opens a chip-select bracket. -/
def SS_LOW {σ : Type} (c : Chip σ) (s : Bus σ) : Bus σ :=
  { chip := c.select s.chip, cur := [], log := s.log }

/-- `digitalWrite(SS, HIGH)`: closes the bracket and files it in the log. -/
def SS_HIGH {σ : Type} (c : Chip σ) (s : Bus σ) : Bus σ :=
  { chip := c.release s.chip, cur := [], log := s.log ++ [s.cur] }

/-- `SPI.transfer(b)`: clocks the byte `b` out and a byte in. -/
def SPI_transfer {σ : Type} (c : Chip σ) (b : Nat) (s : Bus σ) : Nat × Bus σ :=
  let r := c.transfer s.chip (b % 256)
  (r.2 % 256, { chip := r.1, cur := s.cur ++ [(b % 256, r.2 % 256)], log := s.log })

/-! ## Register access (rf69.cpp lines 44-64) -/

/-- `writeReg(reg, value)`. -/
def writeReg {σ : Type} (c : Chip σ) (reg value : Nat) (s : Bus σ) : Bus σ :=
  let reg := reg % 256
  let value := value % 256
  let s := SS_LOW c s
  let s := (SPI_transfer c (reg ||| 0x80) s).2
  let s := (SPI_transfer c value s).2
  SS_HIGH c s

/-- `readReg(reg)`: the value read and the bus state afterwards. -/
def readReg {σ : Type} (c : Chip σ) (reg : Nat) (s : Bus σ) : Nat × Bus σ :=
  let reg := reg % 256
  let s := SS_LOW c s
  let s := (SPI_transfer c reg s).2
  let r := SPI_transfer c 0 s
  (r.1, SS_HIGH c r.2)

/-! ## rf69_init (rf69.cpp lines 66-109) -/

/-- The loops of lines 74-76 and 77-79:
`do writeReg(RF69_REG_SYNCVALUE1, v); while (readReg(RF69_REG_SYNCVALUE1) != v);` -/
def probeLoop {σ : Type} (c : Chip σ) (v : Nat) : Nat → Bus σ → Outcome σ
  | 0, s => .spin s
  | fuel + 1, s =>
    let s := writeReg c RF69_REG_SYNCVALUE1 v s
    let r := readReg c RF69_REG_SYNCVALUE1 s
    if r.1 ≠ v then probeLoop c v fuel r.2 else .done r.2

/-- The value passed to `writeReg(RF69_REG_SYNCCONFIG, ...)` on lines 95-97:
`(1 << 7) | ((sync_len - 1) << 3) | sync_tol`, computed in `int` and converted
to `uint8_t`. -/
def syncconfig_value (sync_len sync_tol : Nat) : Nat :=
  (Int.lor (Int.lor ((1 : Int) <<< 7) (((sync_len : Int) - 1) <<< 3)) (sync_tol : Int) % 256).toNat

/-- The loop of lines 98-100:
`for (i = 0; i < sync_len; i++) writeReg(RF69_REG_SYNCVALUE1 + i, sync_val[i]);`
The first argument bounds the recursion; `sync_len - i` iterations suffice. -/
def syncLoop {σ : Type} (c : Chip σ) (sync_len : Nat) (sync_val : List Nat) :
    Nat → Nat → Bus σ → Bus σ
  | 0, _, s => s
  | n + 1, i, s =>
    if i < sync_len then
      syncLoop c sync_len sync_val n (i + 1)
        (writeReg c (RF69_REG_SYNCVALUE1 + i) (sync_val.getD i 0) s)
    else s

/-- `rf69_init(sync_len, sync_tol, sync_val, recv_packet_len)`. -/
def rf69_init {σ : Type} (c : Chip σ) (fuel : Nat) (sync_len sync_tol : Nat)
    (sync_val : List Nat) (recv_packet_len : Nat) (s : Bus σ) : Outcome σ :=
  let sync_len := sync_len % 256
  let sync_tol := sync_tol % 256
  let recv_packet_len := recv_packet_len % 256
  match probeLoop c 0xaa fuel s with
  | .spin s => .spin s
  | .done s =>
  match probeLoop c 0x55 fuel s with
  | .spin s => .spin s
  | .done s =>
    let s := writeReg c RF69_REG_OPMODE RF69_MODE_STANDBY s
    let s := writeReg c RF69_REG_DATAMODUL 0 s
    let s := writeReg c RF69_REG_BITRATE_MSB 0x7d s
    let s := writeReg c RF69_REG_BITRATE_LSB 0x00 s
    let s := writeReg c RF69_REG_FDEV_MSB 0x01 s
    let s := writeReg c RF69_REG_FDEV_LSB 0x9a s
    let s := writeReg c RF69_REG_FRF_MSB 0x6c s
    let s := writeReg c RF69_REG_FRF_MID 0x7a s
    let s := writeReg c RF69_REG_FRF_LSB 0xff s
    let s := writeReg c RF69_REG_RXBW 0x42 s
    let s := writeReg c RF69_REG_PACKETCONFIG1 0 s
    let s := writeReg c RF69_REG_IRQFLAGS2 0x10 s
    let s := writeReg c RF69_REG_PREAMBLE_LSB 0 s
    let s := writeReg c RF69_REG_SYNCCONFIG (syncconfig_value sync_len sync_tol) s
    let s := syncLoop c sync_len sync_val sync_len 0 s
    let s := writeReg c RF69_REG_PAYLOADLENGTH recv_packet_len s
    let s := writeReg c RF69_REG_FIFOTHRESH 0x80 s
    let s := writeReg c 0x6f 0x20 s
    .done (writeReg c RF69_REG_OPMODE RF69_MODE_RECEIVE s)

/-! ## rf69_receiveDone (rf69.cpp lines 111-125) -/

/-- The loop of lines 116-119:
`while (b < max_sz && readReg(RF69_REG_IRQFLAGS2) & 0x20) out[b++] = readReg(RF69_REG_FIFO);`
It returns `b`, the buffer and the bus state at loop exit.  The first argument
bounds the recursion; `max_sz - b` iterations suffice. -/
def drainLoop {σ : Type} (c : Chip σ) (max_sz : Nat) :
    Nat → Nat → List Nat → Bus σ → Nat × List Nat × Bus σ
  | 0, b, out, s => (b, out, s)
  | n + 1, b, out, s =>
    if b < max_sz then
      let r := readReg c RF69_REG_IRQFLAGS2 s
      if r.1 &&& 0x20 ≠ 0 then
        let f := readReg c RF69_REG_FIFO r.2
        drainLoop c max_sz n (b + 1) (out.set b f.1) f.2
      else (b, out, r.2)
    else (b, out, s)

/-- `rf69_receiveDone(out, sz)`: the returned flag, the buffer `out`, the value
of `*sz` and the bus state afterwards. -/
def rf69_receiveDone {σ : Type} (c : Chip σ) (out : List Nat) (sz : Nat) (s : Bus σ) :
    Bool × List Nat × Nat × Bus σ :=
  let sz := sz % 256
  let r := readReg c RF69_REG_IRQFLAGS2 s
  if r.1 &&& 4 ≠ 0 then
    let max_sz := sz
    let d := drainLoop c max_sz max_sz 0 out r.2
    (true, d.2.1, d.1 % 256, d.2.2)
  else (false, out, sz, r.2)

/-! ## rf69_transmit (rf69.cpp lines 127-168) -/

/-- The loop of lines 148-150, with `pos` of type `uint8_t`:
`for (pos = 0; pos < len; pos++) SPI.transfer(data[pos]);` -/
def fillLoop {σ : Type} (c : Chip σ) (data : List Nat) (len : Nat) :
    Nat → Nat → Bus σ → Outcome σ
  | 0, pos, s => if pos < len then .spin s else .done s
  | fuel + 1, pos, s =>
    if pos < len then
      fillLoop c data len fuel ((pos + 1) % 256) (SPI_transfer c (data.getD pos 0) s).2
    else .done s

/-- The loop of lines 156-157:
`while (!(readReg(RF69_REG_IRQFLAGS2) & 8)) ;` -/
def sentLoop {σ : Type} (c : Chip σ) : Nat → Bus σ → Outcome σ
  | 0, s => .spin s
  | fuel + 1, s =>
    let r := readReg c RF69_REG_IRQFLAGS2 s
    if r.1 &&& 8 = 0 then sentLoop c fuel r.2 else .done r.2

/-- `rf69_transmit(data, len, no_sync)`; `len` is a `size_t`. -/
def rf69_transmit {σ : Type} (c : Chip σ) (fuel : Nat) (data : List Nat) (len : Nat)
    (no_sync : Bool) (s : Bus σ) : Outcome σ :=
  let orig_syncconf := 0
  let s := writeReg c RF69_REG_OPMODE RF69_MODE_STANDBY s
  let s := writeReg c RF69_REG_IRQFLAGS2 0x10 s
  let r := if no_sync then
      let r := readReg c RF69_REG_SYNCCONFIG s
      (r.1, writeReg c RF69_REG_SYNCCONFIG 0 r.2)
    else (orig_syncconf, s)
  let orig_syncconf := r.1
  let s := r.2
  let r := readReg c RF69_REG_PAYLOADLENGTH s
  let orig_payload_len := r.1
  let s := writeReg c RF69_REG_PAYLOADLENGTH len r.2
  let s := SS_LOW c s
  let s := (SPI_transfer c (RF69_REG_FIFO ||| 0x80) s).2
  match fillLoop c data len fuel 0 s with
  | .spin s => .spin s
  | .done s =>
    let s := SS_HIGH c s
    let s := writeReg c RF69_REG_OPMODE RF69_MODE_TRANSMIT s
    match sentLoop c fuel s with
    | .spin s => .spin s
    | .done s =>
      let s := if no_sync then
          writeReg c RF69_REG_SYNCCONFIG orig_syncconf
            (writeReg c RF69_REG_OPMODE RF69_MODE_STANDBY s)
        else s
      let s := writeReg c RF69_REG_PAYLOADLENGTH orig_payload_len s
      .done (writeReg c RF69_REG_OPMODE RF69_MODE_RECEIVE s)

/-! ## Reading the bus log -/

/-- The bytes the host sent in a bracket. -/
def Txn.sent (t : Txn) : List Nat := t.map Prod.fst

/-- The register writes a bracket of sent bytes carries: when the address byte
has the write marker (bit 7), every following byte is written to the addressed
register. -/
def sentWrites (bytes : List Nat) : List (Nat × Nat) :=
  match bytes with
  | [] => []
  | a :: rest => if 0x80 ≤ a then rest.map (fun v => (a - 0x80, v)) else []

/-- The register writes a bracket carries. -/
def Txn.writes (t : Txn) : List (Nat × Nat) := sentWrites t.sent

/-- The register reads a bracket carries: when the address byte has no write
marker, every following byte received is a value read from that register. -/
def Txn.reads (t : Txn) : List (Nat × Nat) :=
  match t with
  | [] => []
  | (a, _) :: rest => if a < 0x80 then rest.map (fun p => (a, p.2)) else []

/-- All register writes of a log, as (register, value), oldest first. -/
def busWrites (log : List Txn) : List (Nat × Nat) := (log.map Txn.writes).flatten

/-- All register reads of a log, as (register, value read), oldest first. -/
def busReads (log : List Txn) : List (Nat × Nat) := (log.map Txn.reads).flatten

/-- The operating mode according to a log: the last value written to the
op-mode register, if any. -/
def opMode (log : List Txn) : Option Nat :=
  (((busWrites log).filter (fun w => w.1 = RF69_REG_OPMODE)).map Prod.snd).getLast?

/-- The bracket is a `writeReg(reg, val)`: it sends the address with the write
marker, then the value. -/
def isWriteOf (reg val : Nat) (t : Txn) : Prop := t.sent = [reg ||| 0x80, val]

/-- The bracket is a `readReg(reg)` that returned `val`. -/
def isReadOf (reg val : Nat) (t : Txn) : Prop := ∃ r, t = [(reg, r), (0, val)]

instance (reg val : Nat) (t : Txn) : Decidable (isWriteOf reg val t) := by
  unfold isWriteOf
  infer_instance

instance (reg val : Nat) (t : Txn) : Decidable (isReadOf reg val t) :=
  decidable_of_iff (t.sent = [reg, 0] ∧ (t.map Prod.snd).tail = [val]) (by
    unfold isReadOf Txn.sent
    constructor
    · intro h
      match t, h with
      | [(a, r), (z, v)], h =>
        simp only [List.map_cons, List.map_nil, List.cons.injEq, and_true, List.tail_cons] at h
        obtain ⟨⟨rfl, rfl⟩, rfl⟩ := h
        exact ⟨r, rfl⟩
    · rintro ⟨r, rfl⟩
      simp)

/-! ## A simulated chip: register file, FIFO and status flags -/

/-- Where the simulated chip is within a chip-select bracket. -/
inductive Phase where
  | idle
  | addr
  | write (a : Nat)
  | read (a : Nat)
deriving DecidableEq

/-- Simulated chip.  `regs` is the register file (a cell holds the last value
written to it), `fifo` the queued bytes, `payloadReady` the PayloadReady flag,
`pending` the number of reads of IRQFLAGS2 that still see PacketSent clear. -/
structure Sim where
  regs : List Nat
  fifo : List Nat
  payloadReady : Bool
  pending : Nat
  phase : Phase
deriving DecidableEq

/-- The value the simulated chip shows in IRQFLAGS2: FifoNotEmpty (0x20) exactly
while the FIFO holds a byte, PacketSent (0x08) once no poll is pending,
PayloadReady (0x04) as stored. -/
def Sim.irqflags2 (m : Sim) : Nat :=
  (if m.fifo = [] then 0 else 0x20) ||| (if m.pending = 0 then 0x08 else 0) |||
    (if m.payloadReady then 0x04 else 0)

/-- One byte clocked through the simulated chip.  The first byte of a bracket
is the address (bit 7: write marker); later bytes are written to, or read
from, the addressed register.  Address 0 is the FIFO, a read of IRQFLAGS2
shows the flags and uses up one pending poll. -/
def Sim.transfer (m : Sim) (b : Nat) : Sim × Nat :=
  match m.phase with
  | .idle => (m, 0)
  | .addr =>
    if b < 0x80 then ({ m with phase := .read b }, 0)
    else ({ m with phase := .write (b - 0x80) }, 0)
  | .write a =>
    if a = RF69_REG_FIFO then ({ m with fifo := m.fifo ++ [b] }, 0)
    else ({ m with regs := m.regs.set a b }, 0)
  | .read a =>
    if a = RF69_REG_FIFO then ({ m with fifo := m.fifo.tail }, m.fifo.headD 0)
    else if a = RF69_REG_IRQFLAGS2 then ({ m with pending := m.pending - 1 }, m.irqflags2)
    else (m, m.regs.getD a 0)

/-- The simulated chip as a bus device. -/
def simChip : Chip Sim where
  select := fun m => { m with phase := .addr }
  transfer := Sim.transfer
  release := fun m => { m with phase := .idle }

/-- A well-formed simulated chip: 128 register cells of 8 bits, 8-bit FIFO
bytes. -/
def Sim.wf (m : Sim) : Prop :=
  m.regs.length = 128 ∧ (∀ v ∈ m.regs, v < 256) ∧ ∀ v ∈ m.fifo, v < 256

instance (m : Sim) : Decidable m.wf := by
  unfold Sim.wf
  infer_instance

/-- A simulated chip at rest with every register cell zero. -/
def Sim.zero (fifo : List Nat) (payloadReady : Bool) (pending : Nat) : Sim :=
  { regs := List.replicate 128 0, fifo := fifo, payloadReady := payloadReady,
    pending := pending, phase := .idle }

/-- A bus with nothing logged yet. -/
def Bus.fresh {σ : Type} (chip : σ) : Bus σ := { chip := chip, cur := [], log := [] }

/-! ## Vocabulary for statements about runs -/

/-- The sent bytes of every completed bracket. -/
def sentLog {σ : Type} (s : Bus σ) : List (List Nat) := s.log.map Txn.sent

/-- The second log extends the first. -/
def Ext {σ : Type} (s s' : Bus σ) : Prop := ∃ ext, s'.log = s.log ++ ext

/-- A bracket of the start-up handshake with value `v`: a write of `v` to the
scratch register, or a read of the scratch register. -/
def isProbe (v : Nat) (t : Txn) : Prop :=
  isWriteOf RF69_REG_SYNCVALUE1 v t ∨ ∃ x, isReadOf RF69_REG_SYNCVALUE1 x t

instance (v : Nat) (t : Txn) : Decidable (isProbe v t) :=
  decidable_of_iff (isWriteOf RF69_REG_SYNCVALUE1 v t ∨ t.sent = [RF69_REG_SYNCVALUE1, 0]) (by
    unfold isProbe isReadOf Txn.sent
    refine or_congr Iff.rfl ⟨fun h => ?_, ?_⟩
    · match t, h with
      | [(a, r), (z, v)], h =>
        simp only [List.map_cons, List.map_nil, List.cons.injEq, and_true] at h
        obtain ⟨rfl, rfl⟩ := h
        exact ⟨v, r, rfl⟩
    · rintro ⟨x, r, rfl⟩
      simp)

/-- The bytes sent by the configuration part of `rf69_init` (lines 82-108),
bracket by bracket. -/
def configSent (sync_len sync_tol : Nat) (sync_val : List Nat) (recv_packet_len : Nat) :
    List (List Nat) :=
  [[0x81, 0x04], [0x82, 0], [0x83, 0x7d], [0x84, 0], [0x85, 0x01], [0x86, 0x9a],
   [0x87, 0x6c], [0x88, 0x7a], [0x89, 0xff], [0x99, 0x42], [0xb7, 0], [0xa8, 0x10],
   [0xad, 0], [0xae, syncconfig_value sync_len sync_tol % 256]] ++
  (List.range sync_len).map
    (fun j => [(RF69_REG_SYNCVALUE1 + j) % 256 ||| 0x80, sync_val.getD j 0 % 256]) ++
  [[0xb8, recv_packet_len % 256], [0xbc, 0x80], [0xef, 0x20], [0x81, 0x10]]

/-- The second log extends the first by brackets that carry no register write. -/
def ReadsOnly {σ : Type} (s s' : Bus σ) : Prop :=
  ∃ ext, s'.log = s.log ++ ext ∧ busWrites ext = []

/-- The register writes of the configuration part of `rf69_init` (lines 82-108),
as (register, value), in program order. -/
def configWrites (sync_len sync_tol : Nat) (sync_val : List Nat) (recv_packet_len : Nat) :
    List (Nat × Nat) :=
  [(0x01, 0x04), (0x02, 0), (0x03, 0x7d), (0x04, 0), (0x05, 0x01), (0x06, 0x9a),
   (0x07, 0x6c), (0x08, 0x7a), (0x09, 0xff), (0x19, 0x42), (0x37, 0), (0x28, 0x10),
   (0x2d, 0), (0x2e, syncconfig_value sync_len sync_tol)] ++
  (List.range sync_len).map
    (fun j => ((RF69_REG_SYNCVALUE1 + j) % 128, sync_val.getD j 0 % 256)) ++
  [(0x38, recv_packet_len), (0x3c, 0x80), (0x6f, 0x20), (0x01, 0x10)]

/-- The start-up handshake has completed within the brackets `h`: a write of
0xAA to the scratch register directly followed by a read of it that returned
0xAA, and later a write of 0x55 directly followed by a read that returned
0x55. -/
def handshake (h : List Txn) : Prop :=
  ∃ a w1 r1 b w2 r2 d, h = a ++ [w1, r1] ++ b ++ [w2, r2] ++ d ∧
    isWriteOf RF69_REG_SYNCVALUE1 0xaa w1 ∧ isReadOf RF69_REG_SYNCVALUE1 0xaa r1 ∧
    isWriteOf RF69_REG_SYNCVALUE1 0x55 w2 ∧ isReadOf RF69_REG_SYNCVALUE1 0x55 r2

/-- A device that never answers: every byte clocked in is 0. -/
def deadChip : Chip Unit where
  select := fun u => u
  transfer := fun u _ => (u, 0)
  release := fun u => u

/-- The values the simulated chip shows on successive reads of IRQFLAGS2 until
PacketSent shows: `pending` values with PacketSent clear, then one with it
set. -/
def pollVals (m : Sim) : List Nat :=
  (List.range (m.pending + 1)).map
    (fun j => ({ m with pending := m.pending - j } : Sim).irqflags2)

/-! ## Bytes and the write marker -/

set_option maxRecDepth 100000 in
theorem or80_mod (r : Nat) : (r % 256 ||| 0x80) % 256 = r % 256 ||| 0x80 := by
  have h : r % 256 < 256 := Nat.mod_lt _ (by norm_num)
  generalize r % 256 = x at h
  revert x
  decide

set_option maxRecDepth 100000 in
theorem or80_ge (r : Nat) : 0x80 ≤ r % 256 ||| 0x80 := by
  have h : r % 256 < 256 := Nat.mod_lt _ (by norm_num)
  generalize r % 256 = x at h
  revert x
  decide

set_option maxRecDepth 100000 in
theorem or80_sub (r : Nat) : (r % 256 ||| 0x80) - 0x80 = r % 128 := by
  have h : r % 256 < 256 := Nat.mod_lt _ (by norm_num)
  have e : r % 128 = r % 256 % 128 := (Nat.mod_mod_of_dvd r (by norm_num)).symm
  rw [e]
  generalize r % 256 = x at h
  revert x
  decide

/-! ## What each bus operation adds to the log -/

theorem ext_refl {σ : Type} (s : Bus σ) : Ext s s := ⟨[], by simp⟩

theorem ext_trans {σ : Type} {a b d : Bus σ} (h1 : Ext a b) (h2 : Ext b d) : Ext a d := by
  obtain ⟨e1, h1⟩ := h1
  obtain ⟨e2, h2⟩ := h2
  exact ⟨e1 ++ e2, by rw [h2, h1, List.append_assoc]⟩

theorem writeReg_log {σ : Type} (c : Chip σ) (reg v : Nat) (s : Bus σ) :
    ∃ t, (writeReg c reg v s).log = s.log ++ [t] ∧ isWriteOf (reg % 256) (v % 256) t := by
  refine ⟨_, rfl, ?_⟩
  simp [isWriteOf, Txn.sent, SPI_transfer, SS_LOW, or80_mod]

theorem readReg_log {σ : Type} (c : Chip σ) (reg : Nat) (s : Bus σ) :
    ∃ t, (readReg c reg s).2.log = s.log ++ [t] ∧
      isReadOf (reg % 256) (readReg c reg s).1 t := by
  refine ⟨_, rfl, ?_⟩
  simp [isReadOf, readReg, SPI_transfer, SS_LOW]

theorem sentLog_writeReg {σ : Type} (c : Chip σ) (reg v : Nat) (s : Bus σ) :
    sentLog (writeReg c reg v s) = sentLog s ++ [[reg % 256 ||| 0x80, v % 256]] := by
  simp [sentLog, writeReg, Txn.sent, SPI_transfer, SS_LOW, SS_HIGH, or80_mod]

theorem ext_writeReg {σ : Type} {c : Chip σ} {a s : Bus σ} (reg v : Nat) (h : Ext a s) :
    Ext a (writeReg c reg v s) :=
  ext_trans h ⟨_, (rfl : (RF69.writeReg c reg v s).log = s.log ++ [_])⟩

theorem ext_readReg {σ : Type} {c : Chip σ} {a s : Bus σ} (reg : Nat) (h : Ext a s) :
    Ext a (readReg c reg s).2 :=
  ext_trans h ⟨_, (rfl : (RF69.readReg c reg s).2.log = s.log ++ [_])⟩

/-! ## Register writes of a log, computed from the sent bytes -/

theorem busWrites_append (a b : List Txn) : busWrites (a ++ b) = busWrites a ++ busWrites b := by
  simp [busWrites]

theorem busWrites_of_sent (l : List Txn) :
    busWrites l = ((l.map Txn.sent).map sentWrites).flatten := by
  simp only [busWrites, List.map_map]
  rfl

theorem writes_of_isWriteOf (reg : Nat) {val : Nat} {t : Txn} (h : isWriteOf (reg % 256) val t) :
    Txn.writes t = [(reg % 128, val)] := by
  unfold isWriteOf at h
  simp [Txn.writes, h, sentWrites, or80_ge, or80_sub]

theorem writes_of_isReadOf {reg val : Nat} {t : Txn} (hr : reg < 0x80) (h : isReadOf reg val t) :
    Txn.writes t = [] := by
  obtain ⟨r, rfl⟩ := h
  simp [Txn.writes, Txn.sent, sentWrites]
  omega

/-! ## The loops of rf69_init -/

theorem probeLoop_shape {σ : Type} (c : Chip σ) (v : Nat) (fuel : Nat) (s : Bus σ) :
    ∃ pre, (probeLoop c v fuel s).bus.log = s.log ++ pre ∧ (∀ t ∈ pre, isProbe (v % 256) t) ∧
      ((∃ s', probeLoop c v fuel s = .spin s') ∨
       ∃ a w r, pre = a ++ [w, r] ∧ isWriteOf RF69_REG_SYNCVALUE1 (v % 256) w ∧
         isReadOf RF69_REG_SYNCVALUE1 v r) := by
  induction fuel generalizing s with
  | zero => exact ⟨[], by simp [probeLoop, Outcome.bus], by simp, Or.inl ⟨s, rfl⟩⟩
  | succ n ih =>
    obtain ⟨w, hw, hwp⟩ := writeReg_log c RF69_REG_SYNCVALUE1 v s
    obtain ⟨r, hr, hrp⟩ := readReg_log c RF69_REG_SYNCVALUE1 (writeReg c RF69_REG_SYNCVALUE1 v s)
    have hwp' : isWriteOf RF69_REG_SYNCVALUE1 (v % 256) w := by simpa using hwp
    have hrp' : isReadOf RF69_REG_SYNCVALUE1
        (readReg c RF69_REG_SYNCVALUE1 (writeReg c RF69_REG_SYNCVALUE1 v s)).1 r := by
      simpa using hrp
    rw [hw] at hr
    by_cases hv : (readReg c RF69_REG_SYNCVALUE1 (writeReg c RF69_REG_SYNCVALUE1 v s)).1 = v
    · refine ⟨[w, r], ?_, ?_, Or.inr ⟨[], w, r, rfl, hwp', hv ▸ hrp'⟩⟩
      · simp only [probeLoop, hv, ne_eq, not_true_eq_false, if_false, Outcome.bus]
        simpa using hr
      · intro t ht
        simp only [List.mem_cons, List.mem_singleton, List.not_mem_nil, or_false] at ht
        rcases ht with rfl | rfl
        · exact Or.inl hwp'
        · exact Or.inr ⟨_, hrp'⟩
    · obtain ⟨pre, h1, h2, h3⟩ :=
        ih (readReg c RF69_REG_SYNCVALUE1 (writeReg c RF69_REG_SYNCVALUE1 v s)).2
      have hstep : probeLoop c v (n + 1) s =
          probeLoop c v n (readReg c RF69_REG_SYNCVALUE1 (writeReg c RF69_REG_SYNCVALUE1 v s)).2 := by
        simp only [probeLoop, ne_eq, hv, not_false_eq_true, if_true]
      refine ⟨[w, r] ++ pre, ?_, ?_, ?_⟩
      · rw [hstep, h1, hr]
        simp
      · intro t ht
        simp only [List.cons_append, List.nil_append, List.mem_cons] at ht
        rcases ht with rfl | rfl | ht
        · exact Or.inl hwp'
        · exact Or.inr ⟨_, hrp'⟩
        · exact h2 t ht
      · rw [hstep]
        rcases h3 with h3 | ⟨a, w2, r2, e, p1, p2⟩
        · exact Or.inl h3
        · exact Or.inr ⟨[w, r] ++ a, w2, r2, by rw [e, List.append_assoc], p1, p2⟩

theorem probeLoop_ext {σ : Type} (c : Chip σ) (v : Nat) (fuel : Nat) (s : Bus σ) :
    Ext s (probeLoop c v fuel s).bus := by
  obtain ⟨pre, h, _⟩ := probeLoop_shape c v fuel s
  exact ⟨pre, h⟩

theorem probe_writes {v : Nat} {pre : List Txn} (h : ∀ t ∈ pre, isProbe v t) :
    ∀ w ∈ busWrites pre, w = (RF69_REG_SYNCVALUE1, v) := by
  induction pre with
  | nil => simp [busWrites]
  | cons t l ih =>
    intro w hw
    rw [show t :: l = [t] ++ l from rfl, busWrites_append] at hw
    rcases List.mem_append.1 hw with hw | hw
    · have ht := h t (List.mem_cons_self _ _)
      have e : busWrites [t] = Txn.writes t := by simp [busWrites]
      rw [e] at hw
      rcases ht with ht | ⟨x, ht⟩
      · have := writes_of_isWriteOf RF69_REG_SYNCVALUE1 (by simpa using ht)
        rw [this] at hw
        simpa using hw
      · rw [writes_of_isReadOf (by simp) ht] at hw
        simp at hw
    · exact ih (fun t ht => h t (List.mem_cons_of_mem _ ht)) w hw

theorem syncLoop_ext {σ : Type} (c : Chip σ) (sync_len : Nat) (sync_val : List Nat)
    (n i : Nat) (s : Bus σ) : Ext s (syncLoop c sync_len sync_val n i s) := by
  induction n generalizing i s with
  | zero => exact ext_refl s
  | succ n ih =>
    unfold syncLoop
    split
    · exact ext_trans (ext_writeReg _ _ (ext_refl s)) (ih _ _)
    · exact ext_refl s

theorem sentLog_syncLoop {σ : Type} (c : Chip σ) (sync_len : Nat) (sync_val : List Nat)
    (n i : Nat) (s : Bus σ) :
    sentLog (syncLoop c sync_len sync_val n i s) = sentLog s ++
      (List.range' i (min n (sync_len - i))).map
        (fun j => [(RF69_REG_SYNCVALUE1 + j) % 256 ||| 0x80, sync_val.getD j 0 % 256]) := by
  induction n generalizing i s with
  | zero => simp [syncLoop]
  | succ n ih =>
    unfold syncLoop
    split
    · rename_i hlt
      rw [ih, sentLog_writeReg]
      have e : min (n + 1) (sync_len - i) = min n (sync_len - (i + 1)) + 1 := by omega
      rw [e, List.range'_succ]
      simp
    · rename_i hge
      have e : min (n + 1) (sync_len - i) = 0 := by omega
      simp [e]

/-! ## The recursion bounds of the counted loops are never reached early -/

theorem syncLoop_bound {σ : Type} (c : Chip σ) (sync_len : Nat) (sync_val : List Nat)
    (n m i : Nat) (s : Bus σ) (hn : sync_len - i ≤ n) (hm : sync_len - i ≤ m) :
    syncLoop c sync_len sync_val n i s = syncLoop c sync_len sync_val m i s := by
  induction n generalizing m i s with
  | zero =>
    have hge : ¬ i < sync_len := by omega
    cases m with
    | zero => rfl
    | succ j => simp [syncLoop, hge]
  | succ k ih =>
    cases m with
    | zero =>
      have hge : ¬ i < sync_len := by omega
      simp [syncLoop, hge]
    | succ j =>
      unfold syncLoop
      split
      · exact ih j (i + 1) _ (by omega) (by omega)
      · rfl

theorem drainLoop_bound {σ : Type} (c : Chip σ) (max_sz n m b : Nat) (out : List Nat)
    (s : Bus σ) (hn : max_sz - b ≤ n) (hm : max_sz - b ≤ m) :
    drainLoop c max_sz n b out s = drainLoop c max_sz m b out s := by
  induction n generalizing m b out s with
  | zero =>
    have hge : ¬ b < max_sz := by omega
    cases m with
    | zero => rfl
    | succ j => simp [drainLoop, hge]
  | succ k ih =>
    cases m with
    | zero =>
      have hge : ¬ b < max_sz := by omega
      simp [drainLoop, hge]
    | succ j =>
      unfold drainLoop
      simp only []
      split
      · split
        · exact ih j (b + 1) _ _ (by omega) (by omega)
        · rfl
      · rfl

/-! ## The shape of a run of rf69_init -/

theorem init_done {σ : Type} (c : Chip σ) (fuel sync_len sync_tol : Nat) (sync_val : List Nat)
    (recv_packet_len : Nat) (s s' : Bus σ)
    (h : rf69_init c fuel sync_len sync_tol sync_val recv_packet_len s = .done s') :
    ∃ s1 s2, probeLoop c 0xaa fuel s = .done s1 ∧ probeLoop c 0x55 fuel s1 = .done s2 ∧
      ∃ w rest, s'.log = s2.log ++ w :: rest ∧
        isWriteOf RF69_REG_OPMODE RF69_MODE_STANDBY w ∧
        (w :: rest).map Txn.sent =
          configSent (sync_len % 256) (sync_tol % 256) sync_val (recv_packet_len % 256) := by
  unfold rf69_init at h
  simp only [] at h
  split at h
  · exact absurd h (by simp)
  · rename_i s1 h1
    split at h
    · exact absurd h (by simp)
    · rename_i s2 h2
      refine ⟨s1, s2, h1, h2, ?_⟩
      injection h with h
      obtain ⟨w, hw, hwp⟩ := writeReg_log c RF69_REG_OPMODE RF69_MODE_STANDBY s2
      have hext : Ext (writeReg c RF69_REG_OPMODE RF69_MODE_STANDBY s2) s' := by
        rw [← h]
        iterate 4 apply ext_writeReg
        refine ext_trans ?_ (syncLoop_ext _ _ _ _ _ _)
        iterate 13 apply ext_writeReg
        exact ext_refl _
      obtain ⟨rest, hrest⟩ := hext
      rw [hw, List.append_assoc] at hrest
      refine ⟨w, rest, hrest, by simpa using hwp, ?_⟩
      have hs : sentLog s' = sentLog s2 ++
          configSent (sync_len % 256) (sync_tol % 256) sync_val (recv_packet_len % 256) := by
        rw [← h]
        simp only [sentLog_writeReg, sentLog_syncLoop, configSent]
        simp [List.range_eq_range']
      have hs2 : sentLog s' = sentLog s2 ++ (w :: rest).map Txn.sent := by
        simp only [sentLog, hrest, List.map_append]
        simp
      rw [hs2] at hs
      exact List.append_cancel_left hs

theorem configSent_last (sync_len sync_tol : Nat) (sync_val : List Nat) (recv_packet_len : Nat) :
    ∃ p, configSent sync_len sync_tol sync_val recv_packet_len = p ++ [[0x81, 0x10]] := by
  refine ⟨[[0x81, 0x04], [0x82, 0], [0x83, 0x7d], [0x84, 0], [0x85, 0x01], [0x86, 0x9a],
    [0x87, 0x6c], [0x88, 0x7a], [0x89, 0xff], [0x99, 0x42], [0xb7, 0], [0xa8, 0x10],
    [0xad, 0], [0xae, syncconfig_value sync_len sync_tol % 256]] ++
    (List.range sync_len).map
      (fun j => [(RF69_REG_SYNCVALUE1 + j) % 256 ||| 0x80, sync_val.getD j 0 % 256]) ++
    [[0xb8, recv_packet_len % 256], [0xbc, 0x80], [0xef, 0x20]], ?_⟩
  simp [configSent]

/-! ## The loops of rf69_transmit -/

theorem ext_ssLow {σ : Type} {c : Chip σ} {a s : Bus σ} (h : Ext a s) : Ext a (SS_LOW c s) := h

theorem ext_ssHigh {σ : Type} {c : Chip σ} {a s : Bus σ} (h : Ext a s) : Ext a (SS_HIGH c s) :=
  ext_trans h ⟨[s.cur], rfl⟩

theorem ext_transfer {σ : Type} {c : Chip σ} {a s : Bus σ} (b : Nat) (h : Ext a s) :
    Ext a (SPI_transfer c b s).2 := h

theorem fillLoop_log {σ : Type} (c : Chip σ) (data : List Nat) (len fuel pos : Nat) (s : Bus σ) :
    (fillLoop c data len fuel pos s).bus.log = s.log := by
  induction fuel generalizing pos s with
  | zero =>
    unfold fillLoop
    split <;> rfl
  | succ n ih =>
    unfold fillLoop
    split
    · rw [ih]
      rfl
    · rfl

theorem ext_fill {σ : Type} {c : Chip σ} {data : List Nat} {len fuel pos : Nat}
    {a x s1 : Bus σ} (h : fillLoop c data len fuel pos x = .done s1) (hx : Ext a x) :
    Ext a s1 := by
  have hl := fillLoop_log c data len fuel pos x
  rw [h] at hl
  obtain ⟨ext, he⟩ := hx
  exact ⟨ext, by rw [← he]; exact hl⟩

theorem fillLoop_spin {σ : Type} (c : Chip σ) (data : List Nat) (len : Nat) (hlen : 256 ≤ len)
    (fuel pos : Nat) (s : Bus σ) (hpos : pos < 256) :
    ∃ s', fillLoop c data len fuel pos s = .spin s' ∧
      Txn.sent s'.cur = Txn.sent s.cur ++
        (List.range fuel).map (fun i => data.getD ((pos + i) % 256) 0 % 256) := by
  induction fuel generalizing pos s with
  | zero =>
    refine ⟨s, ?_, by simp⟩
    have : pos < len := by omega
    simp [fillLoop, this]
  | succ n ih =>
    have hlt : pos < len := by omega
    obtain ⟨s', h1, h2⟩ := ih ((pos + 1) % 256) (SPI_transfer c (data.getD pos 0) s).2
      (Nat.mod_lt _ (by norm_num))
    refine ⟨s', ?_, ?_⟩
    · simp only [fillLoop, hlt, if_true]
      exact h1
    · rw [h2, List.range_succ_eq_map]
      simp only [SPI_transfer, Txn.sent, List.map_append, List.map_cons, List.map_nil,
        List.append_assoc, List.singleton_append, List.map_map, Nat.add_zero]
      congr 2
      · rw [Nat.mod_eq_of_lt hpos]
      · apply List.map_congr_left
        intro i _
        simp only [Function.comp, Nat.succ_eq_add_one]
        have : ((pos + 1) % 256 + i) % 256 = (pos + (i + 1)) % 256 := by omega
        rw [this]

theorem fillLoop_done {σ : Type} (c : Chip σ) (data : List Nat) (len : Nat) (hlen : len ≤ 255)
    (fuel pos : Nat) (s : Bus σ) (hpos : pos ≤ len) (hfuel : len - pos ≤ fuel) :
    ∃ s', fillLoop c data len fuel pos s = .done s' ∧
      Txn.sent s'.cur = Txn.sent s.cur ++
        (List.range' pos (len - pos)).map (fun i => data.getD i 0 % 256) := by
  induction fuel generalizing pos s with
  | zero =>
    have e : len - pos = 0 := by omega
    refine ⟨s, ?_, by simp [e]⟩
    have : ¬ pos < len := by omega
    simp [fillLoop, this]
  | succ n ih =>
    by_cases hlt : pos < len
    · have hp : (pos + 1) % 256 = pos + 1 := Nat.mod_eq_of_lt (by omega)
      obtain ⟨s', h1, h2⟩ := ih (pos + 1) (SPI_transfer c (data.getD pos 0) s).2
        (by omega) (by omega)
      refine ⟨s', ?_, ?_⟩
      · simp only [fillLoop, hlt, if_true, hp]
        exact h1
      · rw [h2]
        have e : len - pos = (len - (pos + 1)) + 1 := by omega
        rw [e, List.range'_succ]
        simp [SPI_transfer, Txn.sent]
    · have e : len - pos = 0 := by omega
      refine ⟨s, ?_, by simp [e]⟩
      simp [fillLoop, hlt]

theorem sentLoop_ext {σ : Type} (c : Chip σ) (fuel : Nat) (s : Bus σ) :
    Ext s (sentLoop c fuel s).bus := by
  induction fuel generalizing s with
  | zero => exact ext_refl s
  | succ n ih =>
    unfold sentLoop
    simp only []
    split
    · exact ext_trans (ext_readReg _ (ext_refl s)) (ih _)
    · exact ext_readReg _ (ext_refl s)

theorem transmit_done {σ : Type} (c : Chip σ) (fuel : Nat) (data : List Nat) (len : Nat)
    (no_sync : Bool) (s s' : Bus σ)
    (h : rf69_transmit c fuel data len no_sync s = .done s') :
    ∃ sx, Ext s sx ∧ s' = writeReg c RF69_REG_OPMODE RF69_MODE_RECEIVE sx := by
  unfold rf69_transmit at h
  simp only [] at h
  split at h
  · exact absurd h (by simp)
  · rename_i s1 h1
    split at h
    · exact absurd h (by simp)
    · rename_i s2 h2
      injection h with h
      refine ⟨_, ?_, h.symm⟩
      have e1 : Ext s s1 := by
        refine ext_fill h1 ?_
        apply ext_transfer
        apply ext_ssLow
        apply ext_writeReg
        apply ext_readReg
        cases no_sync
        · exact ext_writeReg _ _ (ext_writeReg _ _ (ext_refl s))
        · exact ext_writeReg _ _ (ext_readReg _ (ext_writeReg _ _ (ext_writeReg _ _ (ext_refl s))))
      have e2 : Ext s s2 := by
        have := sentLoop_ext c fuel (writeReg c RF69_REG_OPMODE RF69_MODE_TRANSMIT (SS_HIGH c s1))
        rw [h2] at this
        exact ext_trans (ext_writeReg _ _ (ext_ssHigh e1)) this
      apply ext_writeReg
      cases no_sync
      · exact e2
      · exact ext_writeReg _ _ (ext_writeReg _ _ e2)

/-! ## The operating mode -/

theorem opMode_concat (pre : List Txn) (t : Txn) (v : Nat)
    (h : isWriteOf RF69_REG_OPMODE v t) : opMode (pre ++ [t]) = some v := by
  have e : busWrites [t] = [(RF69_REG_OPMODE, v)] := by
    have := writes_of_isWriteOf RF69_REG_OPMODE (by simpa using h)
    simpa [busWrites] using this
  simp [opMode, busWrites_append, e]

theorem opMode_append_of_no_write (a b : List Txn)
    (h : ∀ w ∈ busWrites b, w.1 ≠ RF69_REG_OPMODE) : opMode (a ++ b) = opMode a := by
  have e : (busWrites b).filter (fun w => w.1 = RF69_REG_OPMODE) = [] := by
    rw [List.filter_eq_nil_iff]
    intro w hw
    simpa using h w hw
  simp only [opMode, busWrites_append, List.filter_append, e, List.append_nil]

/-! ## rf69_receiveDone only reads -/

theorem readsOnly_refl {σ : Type} (s : Bus σ) : ReadsOnly s s := ⟨[], by simp, rfl⟩

theorem readsOnly_trans {σ : Type} {a b d : Bus σ} (h1 : ReadsOnly a b) (h2 : ReadsOnly b d) :
    ReadsOnly a d := by
  obtain ⟨e1, h1, w1⟩ := h1
  obtain ⟨e2, h2, w2⟩ := h2
  exact ⟨e1 ++ e2, by rw [h2, h1, List.append_assoc], by rw [busWrites_append, w1, w2]; rfl⟩

theorem readsOnly_readReg {σ : Type} (c : Chip σ) (reg : Nat) (hreg : reg < 0x80) (s : Bus σ) :
    ReadsOnly s (readReg c reg s).2 := by
  obtain ⟨t, ht, hp⟩ := readReg_log c reg s
  have e : reg % 256 = reg := Nat.mod_eq_of_lt (by omega)
  rw [e] at hp
  exact ⟨[t], ht, by simpa [busWrites] using writes_of_isReadOf hreg hp⟩

theorem drainLoop_readsOnly {σ : Type} (c : Chip σ) (max_sz n b : Nat) (out : List Nat)
    (s : Bus σ) : ReadsOnly s (drainLoop c max_sz n b out s).2.2 := by
  induction n generalizing b out s with
  | zero => exact readsOnly_refl s
  | succ n ih =>
    unfold drainLoop
    simp only []
    split
    · split
      · exact readsOnly_trans (readsOnly_trans (readsOnly_readReg c _ (by simp) s)
          (readsOnly_readReg c _ (by simp) _)) (ih _ _ _)
      · exact readsOnly_readReg c _ (by simp) s
    · exact readsOnly_refl s

theorem receiveDone_readsOnly {σ : Type} (c : Chip σ) (out : List Nat) (sz : Nat) (s : Bus σ) :
    ReadsOnly s (rf69_receiveDone c out sz s).2.2.2 := by
  unfold rf69_receiveDone
  simp only []
  split
  · exact readsOnly_trans (readsOnly_readReg c _ (by simp) s) (drainLoop_readsOnly _ _ _ _ _ _)
  · exact readsOnly_readReg c _ (by simp) s

/-! ## C1 -/

/-- C1: with the operating mode read off the bus log as the last value written
to the op-mode register 0x01, every run of `rf69_init` and of `rf69_transmit`
that returns has added brackets to the log whose last write to register 0x01
is RF69_MODE_RECEIVE (0x10), so the mode of the whole log is Receive;
`rf69_receiveDone` adds brackets that write no register at all, so it leaves
the mode as it found it, Receive included. -/
theorem C1_resting_mode_receive {σ : Type} (c : Chip σ) :
    (∀ fuel sync_len sync_tol sync_val recv_packet_len (s s' : Bus σ),
      rf69_init c fuel sync_len sync_tol sync_val recv_packet_len s = .done s' →
      (∃ new, s'.log = s.log ++ new ∧ opMode new = some RF69_MODE_RECEIVE) ∧
        opMode s'.log = some RF69_MODE_RECEIVE) ∧
    (∀ fuel data len no_sync (s s' : Bus σ),
      rf69_transmit c fuel data len no_sync s = .done s' →
      (∃ new, s'.log = s.log ++ new ∧ opMode new = some RF69_MODE_RECEIVE) ∧
        opMode s'.log = some RF69_MODE_RECEIVE) ∧
    (∀ out sz (s : Bus σ),
      (∃ new, (rf69_receiveDone c out sz s).2.2.2.log = s.log ++ new ∧
        ∀ w ∈ busWrites new, w.1 ≠ RF69_REG_OPMODE) ∧
      (opMode s.log = some RF69_MODE_RECEIVE →
        opMode (rf69_receiveDone c out sz s).2.2.2.log = some RF69_MODE_RECEIVE)) := by
  refine ⟨?_, ?_, ?_⟩
  · intro fuel sync_len sync_tol sync_val recv_packet_len s s' h
    obtain ⟨s1, s2, h1, h2, w, rest, hlog, _, hsent⟩ := init_done c fuel _ _ _ _ s s' h
    have e1 := probeLoop_ext c 0xaa fuel s
    have e2 := probeLoop_ext c 0x55 fuel s1
    rw [h1] at e1
    rw [h2] at e2
    obtain ⟨x, hx⟩ := ext_trans e1 e2
    simp only [Outcome.bus] at hx
    -- the last configuration bracket is the write of Receive to the op-mode register
    have hlast : ∃ pre t, w :: rest = pre ++ [t] ∧ isWriteOf RF69_REG_OPMODE RF69_MODE_RECEIVE t := by
      have hne : w :: rest ≠ [] := by simp
      refine ⟨(w :: rest).dropLast, (w :: rest).getLast hne,
        (List.dropLast_append_getLast hne).symm, ?_⟩
      have hm : ((w :: rest).map Txn.sent).getLast? = some [0x81, 0x10] := by
        obtain ⟨p, hp⟩ := configSent_last (sync_len % 256) (sync_tol % 256) sync_val
          (recv_packet_len % 256)
        rw [hsent, hp, List.getLast?_concat]
      rw [List.getLast?_map, List.getLast?_eq_getLast _ hne] at hm
      simpa [isWriteOf] using hm
    obtain ⟨pre, t, hpt, ht⟩ := hlast
    have hfull : s'.log = s.log ++ (x ++ pre ++ [t]) := by
      rw [hlog, hx, hpt]
      simp
    refine ⟨⟨_, hfull, opMode_concat _ _ _ ht⟩, ?_⟩
    rw [hfull, ← List.append_assoc]
    exact opMode_concat _ _ _ ht
  · intro fuel data len no_sync s s' h
    obtain ⟨sx, ⟨x, hx⟩, rfl⟩ := transmit_done c fuel data len no_sync s s' h
    obtain ⟨t, ht, hp⟩ := writeReg_log c RF69_REG_OPMODE RF69_MODE_RECEIVE sx
    have hp' : isWriteOf RF69_REG_OPMODE RF69_MODE_RECEIVE t := by simpa using hp
    have hfull : (writeReg c RF69_REG_OPMODE RF69_MODE_RECEIVE sx).log = s.log ++ (x ++ [t]) := by
      rw [ht, hx, List.append_assoc]
    refine ⟨⟨_, hfull, opMode_concat _ _ _ hp'⟩, ?_⟩
    rw [hfull, ← List.append_assoc]
    exact opMode_concat _ _ _ hp'
  · intro out sz s
    obtain ⟨new, hnew, hw⟩ := receiveDone_readsOnly c out sz s
    refine ⟨⟨new, hnew, by simp [hw]⟩, fun hm => ?_⟩
    rw [hnew, opMode_append_of_no_write _ _ (by simp [hw])]
    exact hm

theorem C1_resting_mode_receive_witness :
    (rf69_init simChip 1 2 0 [0x2d, 0xd4] 5 (Bus.fresh (Sim.zero [] false 0)) =
        .done (rf69_init simChip 1 2 0 [0x2d, 0xd4] 5 (Bus.fresh (Sim.zero [] false 0))).bus ∧
      opMode (rf69_init simChip 1 2 0 [0x2d, 0xd4] 5 (Bus.fresh (Sim.zero [] false 0))).bus.log =
        some RF69_MODE_RECEIVE) ∧
    (rf69_transmit simChip 3 [0xaa, 0xbb] 2 true (Bus.fresh (Sim.zero [] false 2)) =
        .done (rf69_transmit simChip 3 [0xaa, 0xbb] 2 true (Bus.fresh (Sim.zero [] false 2))).bus ∧
      opMode (rf69_transmit simChip 3 [0xaa, 0xbb] 2 true (Bus.fresh (Sim.zero [] false 2))).bus.log =
        some RF69_MODE_RECEIVE) :=
  ⟨⟨by decide, ((C1_resting_mode_receive simChip).1 1 2 0 [0x2d, 0xd4] 5
      (Bus.fresh (Sim.zero [] false 0)) _ (by decide)).2⟩,
   ⟨by decide, ((C1_resting_mode_receive simChip).2.1 3 [0xaa, 0xbb] 2 true
      (Bus.fresh (Sim.zero [] false 2)) _ (by decide)).2⟩⟩

/-! ## The register writes of a run of rf69_init -/

theorem flatten_map_single {α β : Type} (f : α → β) (l : List α) :
    (l.map (fun j => [f j])).flatten = l.map f := by
  induction l with
  | nil => rfl
  | cons a l ih => simp [ih]

theorem syncconfig_value_lt (sync_len sync_tol : Nat) : syncconfig_value sync_len sync_tol < 256 := by
  unfold syncconfig_value
  omega

theorem configSent_writes (sync_len sync_tol : Nat) (sync_val : List Nat) (recv_packet_len : Nat) :
    ((configSent sync_len sync_tol sync_val (recv_packet_len % 256)).map sentWrites).flatten =
      configWrites sync_len sync_tol sync_val (recv_packet_len % 256) := by
  have e : syncconfig_value sync_len sync_tol % 256 = syncconfig_value sync_len sync_tol :=
    Nat.mod_eq_of_lt (syncconfig_value_lt _ _)
  simp only [configSent, configWrites, List.map_append, List.flatten_append, List.map_map,
    Function.comp_def, sentWrites, or80_ge, or80_sub, if_true, List.map_cons, List.map_nil,
    flatten_map_single, e, Nat.mod_mod]
  simp

theorem init_writes {σ : Type} (c : Chip σ) (fuel sync_len sync_tol : Nat) (sync_val : List Nat)
    (recv_packet_len : Nat) (s s' : Bus σ)
    (h : rf69_init c fuel sync_len sync_tol sync_val recv_packet_len s = .done s') :
    ∃ new p, s'.log = s.log ++ new ∧
      (∀ w ∈ p, w = (RF69_REG_SYNCVALUE1, 0xaa) ∨ w = (RF69_REG_SYNCVALUE1, 0x55)) ∧
      busWrites new = p ++
        configWrites (sync_len % 256) (sync_tol % 256) sync_val (recv_packet_len % 256) := by
  obtain ⟨s1, s2, h1, h2, w, rest, hlog, _, hsent⟩ := init_done c fuel _ _ _ _ s s' h
  obtain ⟨x1, hx1, hp1, _⟩ := probeLoop_shape c 0xaa fuel s
  obtain ⟨x2, hx2, hp2, _⟩ := probeLoop_shape c 0x55 fuel s1
  rw [h1] at hx1
  rw [h2] at hx2
  simp only [Outcome.bus] at hx1 hx2
  refine ⟨x1 ++ x2 ++ w :: rest, busWrites (x1 ++ x2), ?_, ?_, ?_⟩
  · rw [hlog, hx2, hx1]
    simp
  · intro v hv
    rw [busWrites_append] at hv
    rcases List.mem_append.1 hv with hv | hv
    · exact Or.inl (probe_writes hp1 v hv)
    · exact Or.inr (probe_writes hp2 v hv)
  · rw [busWrites_append (x1 ++ x2), busWrites_of_sent (w :: rest), hsent, configSent_writes]

/-! ## C10: the sync-configuration byte -/

set_option maxRecDepth 100000 in
theorem syncconfig_value_eq : ∀ l < 9, ∀ t < 256, 1 ≤ l →
    syncconfig_value l t = 0x80 ||| ((l - 1) <<< 3) ||| t := by
  decide

theorem syncPart_filter (sync_len : Nat) (hlen : sync_len ≤ 8) (sync_val : List Nat) :
    ((List.range sync_len).map
      (fun j => ((RF69_REG_SYNCVALUE1 + j) % 128, sync_val.getD j 0 % 256))).filter
        (fun w => w.1 = RF69_REG_SYNCCONFIG) = [] := by
  rw [List.filter_eq_nil_iff]
  intro w hw
  obtain ⟨j, hj, rfl⟩ := List.mem_map.1 hw
  have hj' : j < sync_len := List.mem_range.1 hj
  simp only [RF69_REG_SYNCVALUE1, RF69_REG_SYNCCONFIG, decide_eq_true_eq]
  omega

/-- C10: the byte `rf69_init` passes to the sync-configuration register decodes
back to its inputs.  For sync_len in 1..8 and sync_tol in 0..7: bit 7 is set,
bit 6 is clear, bits 5..3 hold sync_len - 1 and bits 2..0 hold sync_tol; hence
two pairs in that range with the same byte are the same pair. -/
theorem C10_syncconfig_decodes (sync_len sync_tol : Nat)
    (hlen : 1 ≤ sync_len ∧ sync_len ≤ 8) (htol : sync_tol ≤ 7) :
    (syncconfig_value sync_len sync_tol).testBit 7 = true ∧
    (syncconfig_value sync_len sync_tol).testBit 6 = false ∧
    (syncconfig_value sync_len sync_tol >>> 3) &&& 7 = sync_len - 1 ∧
    syncconfig_value sync_len sync_tol &&& 7 = sync_tol ∧
    ∀ l t, 1 ≤ l ∧ l ≤ 8 → t ≤ 7 →
      syncconfig_value l t = syncconfig_value sync_len sync_tol → l = sync_len ∧ t = sync_tol := by
  have key : ∀ l < 9, ∀ t < 8, 1 ≤ l →
      (syncconfig_value l t).testBit 7 = true ∧ (syncconfig_value l t).testBit 6 = false ∧
      (syncconfig_value l t >>> 3) &&& 7 = l - 1 ∧ syncconfig_value l t &&& 7 = t := by
    decide
  obtain ⟨k1, k2, k3, k4⟩ := key sync_len (by omega) sync_tol (by omega) hlen.1
  refine ⟨k1, k2, k3, k4, ?_⟩
  intro l t hl ht e
  obtain ⟨_, _, j3, j4⟩ := key l (by omega) t (by omega) hl.1
  rw [e] at j3 j4
  rw [k3] at j3
  rw [k4] at j4
  omega

theorem C10_syncconfig_decodes_witness :
    syncconfig_value 2 0 &&& 7 = 0 ∧ (syncconfig_value 2 0 >>> 3) &&& 7 = 1 :=
  have h := C10_syncconfig_decodes 2 0 (by decide) (by decide)
  ⟨h.2.2.2.1, h.2.2.1⟩

/-! ## C3: nothing received -/

/-- C3: whenever bit 2 (PayloadReady) of the value read from IRQFLAGS2 is
clear, `rf69_receiveDone` returns false, leaves the buffer and `*sz` alone, and
the bus has seen exactly one bracket, the read of register 0x28: the bus state
is the one right after that read, so there is no read of the FIFO register, no
other read and no register write. -/
theorem C3_no_payload_single_read {σ : Type} (c : Chip σ) (out : List Nat) (sz : Nat)
    (s : Bus σ) (hclear : (readReg c RF69_REG_IRQFLAGS2 s).1 &&& 4 = 0) :
    (rf69_receiveDone c out sz s).1 = false ∧
    (rf69_receiveDone c out sz s).2.1 = out ∧
    (rf69_receiveDone c out sz s).2.2.1 = sz % 256 ∧
    (rf69_receiveDone c out sz s).2.2.2 = (readReg c RF69_REG_IRQFLAGS2 s).2 ∧
    ∃ t, (rf69_receiveDone c out sz s).2.2.2.log = s.log ++ [t] ∧
      isReadOf RF69_REG_IRQFLAGS2 (readReg c RF69_REG_IRQFLAGS2 s).1 t ∧
      busReads [t] = [(RF69_REG_IRQFLAGS2, (readReg c RF69_REG_IRQFLAGS2 s).1)] ∧
      busWrites [t] = [] := by
  have e : rf69_receiveDone c out sz s = (false, out, sz % 256, (readReg c RF69_REG_IRQFLAGS2 s).2) := by
    have hc := hclear
    simp only [RF69_REG_IRQFLAGS2] at hc
    simp [rf69_receiveDone, hc]
  obtain ⟨t, ht, hp⟩ := readReg_log c RF69_REG_IRQFLAGS2 s
  have hp' : isReadOf RF69_REG_IRQFLAGS2 (readReg c RF69_REG_IRQFLAGS2 s).1 t := by simpa using hp
  refine ⟨by rw [e], by rw [e], by rw [e], by rw [e], t, by rw [e]; exact ht, hp', ?_, ?_⟩
  · obtain ⟨r, rfl⟩ := hp'
    simp [busReads, Txn.reads]
  · simpa [busWrites] using writes_of_isReadOf (by simp) hp'

theorem C3_no_payload_single_read_witness :
    (readReg simChip RF69_REG_IRQFLAGS2 (Bus.fresh (Sim.zero [1, 2] false 0))).1 &&& 4 = 0 ∧
    (rf69_receiveDone simChip [7, 7] 2 (Bus.fresh (Sim.zero [1, 2] false 0))).1 = false ∧
    (rf69_receiveDone simChip [7, 7] 2 (Bus.fresh (Sim.zero [1, 2] false 0))).2.1 = [7, 7] :=
  have h := C3_no_payload_single_read simChip [7, 7] 2 (Bus.fresh (Sim.zero [1, 2] false 0))
    (by decide)
  ⟨by decide, h.1, h.2.1⟩

/-! ## C8: the start-up handshake -/

theorem init_spin {σ : Type} (c : Chip σ) (fuel sync_len sync_tol : Nat) (sync_val : List Nat)
    (recv_packet_len : Nat) (s s' : Bus σ)
    (h : rf69_init c fuel sync_len sync_tol sync_val recv_packet_len s = .spin s') :
    probeLoop c 0xaa fuel s = .spin s' ∨
      ∃ s1, probeLoop c 0xaa fuel s = .done s1 ∧ probeLoop c 0x55 fuel s1 = .spin s' := by
  unfold rf69_init at h
  simp only [] at h
  split at h
  · rename_i s1 h1
    injection h with h
    exact Or.inl (h ▸ h1)
  · rename_i s1 h1
    split at h
    · rename_i s2 h2
      injection h with h
      exact Or.inr ⟨s1, h1, h ▸ h2⟩
    · exact absurd h (by simp)

theorem init_of_probe_spin {σ : Type} (c : Chip σ) (fuel sync_len sync_tol : Nat)
    (sync_val : List Nat) (recv_packet_len : Nat) (s s1 : Bus σ)
    (h : probeLoop c 0xaa fuel s = .spin s1) :
    rf69_init c fuel sync_len sync_tol sync_val recv_packet_len s = .spin s1 := by
  unfold rf69_init
  simp only [h]

theorem probeLoop_dead {σ : Type} (c : Chip σ) (v : Nat)
    (hdead : ∀ x : Bus σ, (readReg c RF69_REG_SYNCVALUE1 x).1 ≠ v) (fuel : Nat) (s : Bus σ) :
    ∃ s', probeLoop c v fuel s = .spin s' := by
  induction fuel generalizing s with
  | zero => exact ⟨s, rfl⟩
  | succ n ih =>
    obtain ⟨s', h⟩ := ih (readReg c RF69_REG_SYNCVALUE1 (writeReg c RF69_REG_SYNCVALUE1 v s)).2
    refine ⟨s', ?_⟩
    simp only [probeLoop, ne_eq, hdead, not_false_eq_true, if_true]
    exact h

theorem deadChip_reads_zero (reg : Nat) (x : Bus Unit) : (readReg deadChip reg x).1 = 0 := rfl

/-- C8: in every run of `rf69_init`, finished or still spinning, the brackets
on the bus split into a handshake part and a configuration part.  The
handshake part holds only writes of a sentinel (0xAA or 0x55) to the scratch
register 0x2f and reads of it.  If the configuration part is not empty, it
starts with the write 0x01 <- Standby and the handshake part contains a read
of 0x2f that returned 0xAA directly after a write of 0xAA, followed later by
a read that returned 0x55 directly after a write of 0x55.  Against a chip
whose register 0x2f never reads back 0xAA, the run is still spinning whatever
the fuel, and every register write it made is to 0x2f. -/
theorem C8_handshake_before_configuration {σ : Type} (c : Chip σ) (fuel sync_len sync_tol : Nat)
    (sync_val : List Nat) (recv_packet_len : Nat) (s : Bus σ) :
    (∃ h cfg,
      (rf69_init c fuel sync_len sync_tol sync_val recv_packet_len s).bus.log = s.log ++ h ++ cfg ∧
      (∀ t ∈ h, isProbe 0xaa t ∨ isProbe 0x55 t) ∧
      (cfg ≠ [] → handshake h ∧
        ∃ w rest, cfg = w :: rest ∧ isWriteOf RF69_REG_OPMODE RF69_MODE_STANDBY w)) ∧
    ((∀ x : Bus σ, (readReg c RF69_REG_SYNCVALUE1 x).1 ≠ 0xaa) →
      (∃ s', rf69_init c fuel sync_len sync_tol sync_val recv_packet_len s = .spin s') ∧
      ∃ new,
        (rf69_init c fuel sync_len sync_tol sync_val recv_packet_len s).bus.log = s.log ++ new ∧
        ∀ w ∈ busWrites new, w.1 = RF69_REG_SYNCVALUE1) := by
  constructor
  · cases hres : rf69_init c fuel sync_len sync_tol sync_val recv_packet_len s with
    | done s' =>
      obtain ⟨s1, s2, h1, h2, w, rest, hlog, hstandby, _⟩ := init_done c fuel _ _ _ _ s s' hres
      obtain ⟨x1, hx1, hp1, hs1⟩ := probeLoop_shape c 0xaa fuel s
      obtain ⟨x2, hx2, hp2, hs2⟩ := probeLoop_shape c 0x55 fuel s1
      rw [h1] at hx1 hs1
      rw [h2] at hx2 hs2
      simp only [Outcome.bus] at hx1 hx2
      refine ⟨x1 ++ x2, w :: rest, ?_, ?_, fun _ => ⟨?_, w, rest, rfl, hstandby⟩⟩
      · simp only [Outcome.bus]
        rw [hlog, hx2, hx1]
        simp
      · intro t ht
        rcases List.mem_append.1 ht with ht | ht
        · exact Or.inl (hp1 t ht)
        · exact Or.inr (hp2 t ht)
      · rcases hs1 with ⟨_, hs1⟩ | ⟨a, w1, r1, e1, pw1, pr1⟩
        · exact absurd hs1 (by simp)
        rcases hs2 with ⟨_, hs2⟩ | ⟨b, w2, r2, e2, pw2, pr2⟩
        · exact absurd hs2 (by simp)
        exact ⟨a, w1, r1, b, w2, r2, [], by rw [e1, e2]; simp, pw1, pr1, pw2, pr2⟩
    | spin s' =>
      rcases init_spin c fuel _ _ _ _ s s' hres with h1 | ⟨s1, h1, h2⟩
      · obtain ⟨x1, hx1, hp1, _⟩ := probeLoop_shape c 0xaa fuel s
        rw [h1] at hx1
        simp only [Outcome.bus] at hx1
        exact ⟨x1, [], by simpa [Outcome.bus] using hx1, fun t ht => Or.inl (hp1 t ht),
          fun hne => absurd rfl hne⟩
      · obtain ⟨x1, hx1, hp1, _⟩ := probeLoop_shape c 0xaa fuel s
        obtain ⟨x2, hx2, hp2, _⟩ := probeLoop_shape c 0x55 fuel s1
        rw [h1] at hx1
        rw [h2] at hx2
        simp only [Outcome.bus] at hx1 hx2
        refine ⟨x1 ++ x2, [], ?_, ?_, fun hne => absurd rfl hne⟩
        · simp only [Outcome.bus]
          rw [hx2, hx1]
          simp
        · intro t ht
          rcases List.mem_append.1 ht with ht | ht
          · exact Or.inl (hp1 t ht)
          · exact Or.inr (hp2 t ht)
  · intro hdead
    obtain ⟨s1, h1⟩ := probeLoop_dead c 0xaa hdead fuel s
    have hres := init_of_probe_spin c fuel sync_len sync_tol sync_val recv_packet_len s s1 h1
    obtain ⟨x1, hx1, hp1, _⟩ := probeLoop_shape c 0xaa fuel s
    rw [h1] at hx1
    simp only [Outcome.bus] at hx1
    refine ⟨⟨s1, hres⟩, x1, by rw [hres]; exact hx1, ?_⟩
    intro w hw
    rw [probe_writes hp1 w hw]

theorem C8_handshake_before_configuration_witness :
    (∀ x : Bus Unit, (readReg deadChip RF69_REG_SYNCVALUE1 x).1 ≠ 0xaa) ∧
    (∃ s', rf69_init deadChip 3 2 0 [0x2d, 0xd4] 5 (Bus.fresh ()) = .spin s') :=
  ⟨fun x => by rw [deadChip_reads_zero]; decide,
   ((C8_handshake_before_configuration deadChip 3 2 0 [0x2d, 0xd4] 5 (Bus.fresh ())).2
      (fun x => by rw [deadChip_reads_zero]; decide)).1⟩

/-! ## C9: the FIFO-fill loop -/

/-- C9: the FIFO-fill loop of `rf69_transmit`, started at pos = 0, exits for
some amount of fuel if and only if len <= 255.  For len <= 255 it exits after
sending exactly data[0], ..., data[len-1] inside the open bracket and leaves
the log alone.  For len >= 256 it is still running after any number of
iterations, and the byte sent in iteration i is data[i % 256]: the 8-bit
counter has wrapped from 255 to 0. -/
theorem C9_fill_loop_terminates_iff {σ : Type} (c : Chip σ) (data : List Nat) (len : Nat)
    (s : Bus σ) :
    ((∃ fuel s', fillLoop c data len fuel 0 s = .done s') ↔ len ≤ 255) ∧
    (len ≤ 255 → ∀ fuel, len ≤ fuel → ∃ s', fillLoop c data len fuel 0 s = .done s' ∧
      Txn.sent s'.cur = Txn.sent s.cur ++ (List.range len).map (fun i => data.getD i 0 % 256) ∧
      s'.log = s.log) ∧
    (256 ≤ len → ∀ fuel, ∃ s', fillLoop c data len fuel 0 s = .spin s' ∧
      Txn.sent s'.cur = Txn.sent s.cur ++
        (List.range fuel).map (fun i => data.getD (i % 256) 0 % 256)) := by
  have hdone : len ≤ 255 → ∀ fuel, len ≤ fuel → ∃ s', fillLoop c data len fuel 0 s = .done s' ∧
      Txn.sent s'.cur = Txn.sent s.cur ++ (List.range len).map (fun i => data.getD i 0 % 256) ∧
      s'.log = s.log := by
    intro hlen fuel hfuel
    obtain ⟨s', h1, h2⟩ := fillLoop_done c data len hlen fuel 0 s (Nat.zero_le _) (by omega)
    refine ⟨s', h1, ?_, ?_⟩
    · rw [h2, List.range_eq_range']
      rfl
    · have := fillLoop_log c data len fuel 0 s
      rw [h1] at this
      exact this
  have hspin : 256 ≤ len → ∀ fuel, ∃ s', fillLoop c data len fuel 0 s = .spin s' ∧
      Txn.sent s'.cur = Txn.sent s.cur ++
        (List.range fuel).map (fun i => data.getD (i % 256) 0 % 256) := by
    intro hlen fuel
    obtain ⟨s', h1, h2⟩ := fillLoop_spin c data len hlen fuel 0 s (by norm_num)
    refine ⟨s', h1, ?_⟩
    rw [h2]
    simp
  refine ⟨⟨?_, ?_⟩, hdone, hspin⟩
  · rintro ⟨fuel, s', h⟩
    by_contra hlen
    obtain ⟨s2, h2, _⟩ := hspin (by omega) fuel
    rw [h2] at h
    exact absurd h (by simp)
  · intro hlen
    obtain ⟨s', h, _⟩ := hdone hlen len (Nat.le_refl _)
    exact ⟨len, s', h⟩

theorem C9_fill_loop_terminates_iff_witness :
    (∃ s', fillLoop simChip [0xaa, 0xbb] 2 2 0 (Bus.fresh (Sim.zero [] false 0)) = .done s' ∧
      Txn.sent s'.cur = Txn.sent (Bus.fresh (Sim.zero [] false 0)).cur ++
        (List.range 2).map (fun i => [0xaa, 0xbb].getD i 0 % 256) ∧
      s'.log = (Bus.fresh (Sim.zero [] false 0)).log) ∧
    (∃ s', fillLoop simChip [0xaa, 0xbb] 256 300 0 (Bus.fresh (Sim.zero [] false 0)) = .spin s' ∧
      Txn.sent s'.cur = Txn.sent (Bus.fresh (Sim.zero [] false 0)).cur ++
        (List.range 300).map (fun i => [0xaa, 0xbb].getD (i % 256) 0 % 256)) :=
  ⟨(C9_fill_loop_terminates_iff simChip [0xaa, 0xbb] 2 (Bus.fresh (Sim.zero [] false 0))).2.1
      (by decide) 2 (by decide),
   (C9_fill_loop_terminates_iff simChip [0xaa, 0xbb] 256 (Bus.fresh (Sim.zero [] false 0))).2.2
      (by decide) 300⟩

/-! ## Register access against the simulated chip -/

theorem or80_of_lt {reg : Nat} (h : reg < 0x80) :
    (reg ||| 0x80) % 256 = reg ||| 0x80 ∧ ¬ (reg ||| 0x80 < 0x80) ∧ (reg ||| 0x80) - 0x80 = reg := by
  have e : reg % 256 = reg := Nat.mod_eq_of_lt (by omega)
  have h1 := or80_mod reg
  have h2 := or80_ge reg
  have h3 := or80_sub reg
  rw [e] at h1 h2 h3
  rw [Nat.mod_eq_of_lt h] at h3
  exact ⟨h1, by omega, h3⟩

theorem irqflags2_lt (m : Sim) : m.irqflags2 < 256 := by
  unfold Sim.irqflags2
  split <;> split <;> split <;> decide

theorem irqflags2_sent (m : Sim) : m.irqflags2 &&& 8 = 0 ↔ m.pending ≠ 0 := by
  unfold Sim.irqflags2
  split <;> split <;> split <;> simp_all <;> decide

theorem irqflags2_fifo (m : Sim) : m.irqflags2 &&& 0x20 ≠ 0 ↔ m.fifo ≠ [] := by
  unfold Sim.irqflags2
  split <;> split <;> split <;> simp_all <;> decide

theorem irqflags2_ready (m : Sim) : m.irqflags2 &&& 4 ≠ 0 ↔ m.payloadReady = true := by
  unfold Sim.irqflags2
  split <;> split <;> split <;> simp_all <;> decide

theorem sim_writeReg (reg v : Nat) (hreg : 0 < reg ∧ reg < 0x80) (s : Bus Sim) :
    writeReg simChip reg v s =
      { chip := { s.chip with regs := s.chip.regs.set reg (v % 256), phase := .idle },
        cur := [],
        log := s.log ++ [[(reg ||| 0x80, 0), (v % 256, 0)]] } := by
  obtain ⟨h1, h2, h3⟩ := or80_of_lt hreg.2
  have e : reg % 256 = reg := Nat.mod_eq_of_lt (by omega)
  have hne : reg ≠ 0 := by omega
  simp [writeReg, SS_LOW, SS_HIGH, SPI_transfer, simChip, Sim.transfer, e, h1, h2, h3, hne]

theorem sim_readReg (reg : Nat) (hreg : 0 < reg ∧ reg < 0x80) (hirq : reg ≠ RF69_REG_IRQFLAGS2)
    (s : Bus Sim) :
    readReg simChip reg s =
      (s.chip.regs.getD reg 0 % 256,
        { chip := { s.chip with phase := .idle },
          cur := [],
          log := s.log ++ [[(reg, 0), (0, s.chip.regs.getD reg 0 % 256)]] }) := by
  have e : reg % 256 = reg := Nat.mod_eq_of_lt (by omega)
  have hne : reg ≠ 0 := by omega
  have hirq' : reg ≠ 40 := by simpa using hirq
  simp [readReg, SS_LOW, SS_HIGH, SPI_transfer, simChip, Sim.transfer, e, hreg.2, hne, hirq']

theorem sim_readIrq (s : Bus Sim) :
    readReg simChip RF69_REG_IRQFLAGS2 s =
      (s.chip.irqflags2,
        { chip := { s.chip with pending := s.chip.pending - 1, phase := .idle },
          cur := [],
          log := s.log ++ [[(RF69_REG_IRQFLAGS2, 0), (0, s.chip.irqflags2)]] }) := by
  have e : s.chip.irqflags2 % 256 = s.chip.irqflags2 := Nat.mod_eq_of_lt (irqflags2_lt _)
  have e2 : ({ s.chip with phase := Phase.read 40 } : Sim).irqflags2 = s.chip.irqflags2 := rfl
  simp [readReg, SS_LOW, SS_HIGH, SPI_transfer, simChip, Sim.transfer, e, e2]

theorem sim_readFifo (s : Bus Sim) :
    readReg simChip RF69_REG_FIFO s =
      (s.chip.fifo.headD 0 % 256,
        { chip := { s.chip with fifo := s.chip.fifo.tail, phase := .idle },
          cur := [],
          log := s.log ++ [[(RF69_REG_FIFO, 0), (0, s.chip.fifo.headD 0 % 256)]] }) := by
  simp [readReg, SS_LOW, SS_HIGH, SPI_transfer, simChip, Sim.transfer]

/-! ## rf69_init against the simulated chip -/

theorem getD_set_eq (l : List Nat) (i v : Nat) (h : i < l.length) : (l.set i v).getD i 0 = v := by
  simp [List.getD_eq_getElem?_getD, h]

theorem getD_set_ne (l : List Nat) (i j v : Nat) (h : i ≠ j) :
    (l.set i v).getD j 0 = l.getD j 0 := by
  simp [List.getD_eq_getElem?_getD, List.getElem?_set_ne h]

theorem sim_writeReg_regs (reg v : Nat) (hreg : 0 < reg ∧ reg < 0x80) (s : Bus Sim) :
    (writeReg simChip reg v s).chip.regs = s.chip.regs.set reg (v % 256) := by
  rw [sim_writeReg reg v hreg]

theorem probeLoop_sim (v n : Nat) (hv : v < 256) (s : Bus Sim)
    (hlen : RF69_REG_SYNCVALUE1 < s.chip.regs.length) :
    probeLoop simChip v (n + 1) s = .done
      { chip := { s.chip with regs := s.chip.regs.set RF69_REG_SYNCVALUE1 v, phase := .idle },
        cur := [],
        log := s.log ++ [[(0xaf, 0), (v, 0)], [(0x2f, 0), (0, v)]] } := by
  have e : v % 256 = v := Nat.mod_eq_of_lt hv
  have hl : 47 < s.chip.regs.length := by simpa using hlen
  have hg : (s.chip.regs.set 47 v)[47]?.getD 0 = v := by
    have := getD_set_eq s.chip.regs 47 v hl
    simpa only [List.getD_eq_getElem?_getD] using this
  simp only [probeLoop, RF69_REG_SYNCVALUE1]
  rw [sim_writeReg 47 v (by decide), sim_readReg 47 (by decide) (by decide)]
  simp [e, hg]

theorem syncLoop_sim (sync_len : Nat) (hsl : sync_len ≤ 8) (sync_val : List Nat)
    (n i : Nat) (s : Bus Sim) (hn : sync_len - i ≤ n) (hlen : s.chip.regs.length = 128) :
    (syncLoop simChip sync_len sync_val n i s).chip.regs.length = 128 ∧
    (∀ r, r < RF69_REG_SYNCVALUE1 + i ∨ RF69_REG_SYNCVALUE1 + sync_len ≤ r →
      (syncLoop simChip sync_len sync_val n i s).chip.regs.getD r 0 = s.chip.regs.getD r 0) ∧
    (∀ j, i ≤ j → j < sync_len →
      (syncLoop simChip sync_len sync_val n i s).chip.regs.getD (RF69_REG_SYNCVALUE1 + j) 0 =
        sync_val.getD j 0 % 256) := by
  induction n generalizing i s with
  | zero =>
    refine ⟨hlen, fun _ _ => rfl, fun j h1 h2 => ?_⟩
    omega
  | succ n ih =>
    unfold syncLoop
    split
    · rename_i hlt
      have hreg : 0 < RF69_REG_SYNCVALUE1 + i ∧ RF69_REG_SYNCVALUE1 + i < 0x80 := by
        simp only [RF69_REG_SYNCVALUE1]
        omega
      have hr := sim_writeReg_regs (RF69_REG_SYNCVALUE1 + i) (sync_val.getD i 0) hreg s
      have hlen' : (writeReg simChip (RF69_REG_SYNCVALUE1 + i) (sync_val.getD i 0) s).chip.regs.length
          = 128 := by
        rw [hr, List.length_set, hlen]
      obtain ⟨h1, h2, h3⟩ := ih (i + 1)
        (writeReg simChip (RF69_REG_SYNCVALUE1 + i) (sync_val.getD i 0) s) (by omega) hlen'
      refine ⟨h1, ?_, ?_⟩
      · intro r hrr
        rw [h2 r (by simp only [RF69_REG_SYNCVALUE1] at hrr ⊢; omega), hr]
        exact getD_set_ne _ _ _ _ (by simp only [RF69_REG_SYNCVALUE1] at hrr ⊢; omega)
      · intro j hj1 hj2
        by_cases hji : j = i
        · subst hji
          rw [h2 _ (by simp only [RF69_REG_SYNCVALUE1]; omega), hr]
          exact getD_set_eq _ _ _ (by rw [hlen]; exact hreg.2)
        · exact h3 j (by omega) hj2
    · rename_i hge
      refine ⟨hlen, fun _ _ => rfl, fun j h1 h2 => ?_⟩
      omega

theorem init_tail_sim (sync_len : Nat) (hsl : sync_len ≤ 8) (sync_val : List Nat)
    (recv_packet_len : Nat) (sb : Bus Sim) (hlen : sb.chip.regs.length = 128) :
    (∀ i, i < sync_len →
      (writeReg simChip RF69_REG_OPMODE RF69_MODE_RECEIVE (writeReg simChip 0x6f 0x20
        (writeReg simChip RF69_REG_FIFOTHRESH 0x80 (writeReg simChip RF69_REG_PAYLOADLENGTH
          recv_packet_len (syncLoop simChip sync_len sync_val sync_len 0 sb))))).chip.regs.getD
            (RF69_REG_SYNCVALUE1 + i) 0 = sync_val.getD i 0 % 256) ∧
    (writeReg simChip RF69_REG_OPMODE RF69_MODE_RECEIVE (writeReg simChip 0x6f 0x20
      (writeReg simChip RF69_REG_FIFOTHRESH 0x80 (writeReg simChip RF69_REG_PAYLOADLENGTH
        recv_packet_len (syncLoop simChip sync_len sync_val sync_len 0 sb))))).chip.regs.getD
          RF69_REG_PAYLOADLENGTH 0 = recv_packet_len % 256 := by
  obtain ⟨h1, _, h3⟩ := syncLoop_sim sync_len hsl sync_val sync_len 0 sb (by omega) hlen
  simp only [RF69_REG_OPMODE, RF69_REG_FIFOTHRESH, RF69_REG_PAYLOADLENGTH, RF69_MODE_RECEIVE,
    RF69_REG_SYNCVALUE1] at h3 ⊢
  rw [sim_writeReg_regs 1 _ (by decide), sim_writeReg_regs 0x6f _ (by decide),
    sim_writeReg_regs 0x3c _ (by decide), sim_writeReg_regs 0x38 _ (by decide)]
  constructor
  · intro i hi
    rw [getD_set_ne _ _ _ _ (by omega), getD_set_ne _ _ _ _ (by omega),
      getD_set_ne _ _ _ _ (by omega), getD_set_ne _ _ _ _ (by omega)]
    exact h3 i (Nat.zero_le _) hi
  · rw [getD_set_ne _ _ _ _ (by decide), getD_set_ne _ _ _ _ (by decide),
      getD_set_ne _ _ _ _ (by decide)]
    exact getD_set_eq _ _ _ (by rw [h1]; decide)

/-- C7: against the simulated register file, for sync_len in 1..8 and a
sync_val of that length, `rf69_init` returns (one unit of fuel is enough) and
afterwards register 0x2f + i holds sync_val[i] for every i < sync_len - so the
scratch register 0x2f holds sync_val[0], not a sentinel -, the payload-length
register 0x38 holds recv_packet_len, and no sync-value register from
0x2f + sync_len up to 0x36 was written. -/
theorem C7_init_programs_sync_value (fuel sync_len sync_tol : Nat) (sync_val : List Nat)
    (recv_packet_len : Nat) (s : Bus Sim) (hfuel : 1 ≤ fuel)
    (hlen : 1 ≤ sync_len ∧ sync_len ≤ 8)
    (hval : sync_val.length = sync_len ∧ ∀ v ∈ sync_val, v < 256)
    (hrecv : recv_packet_len < 256) (hregs : s.chip.regs.length = 128) :
    ∃ s', rf69_init simChip fuel sync_len sync_tol sync_val recv_packet_len s = .done s' ∧
      (∀ i, i < sync_len → s'.chip.regs.getD (RF69_REG_SYNCVALUE1 + i) 0 = sync_val.getD i 0) ∧
      s'.chip.regs.getD RF69_REG_SYNCVALUE1 0 = sync_val.getD 0 0 ∧
      s'.chip.regs.getD RF69_REG_PAYLOADLENGTH 0 = recv_packet_len ∧
      ∃ new, s'.log = s.log ++ new ∧
        ∀ r v, RF69_REG_SYNCVALUE1 + sync_len ≤ r → r ≤ 0x36 → (r, v) ∉ busWrites new := by
  obtain ⟨n, rfl⟩ : ∃ n, fuel = n + 1 := ⟨fuel - 1, by omega⟩
  have e1 : sync_len % 256 = sync_len := Nat.mod_eq_of_lt (by omega)
  have e3 : recv_packet_len % 256 = recv_packet_len := Nat.mod_eq_of_lt hrecv
  have hbyte : ∀ i, i < sync_len → sync_val.getD i 0 % 256 = sync_val.getD i 0 := by
    intro i hi
    apply Nat.mod_eq_of_lt
    have hi' : i < sync_val.length := by omega
    rw [List.getD_eq_getElem _ _ hi']
    exact hval.2 _ (List.getElem_mem _)
  have h1 := probeLoop_sim 0xaa n (by decide) s (by rw [hregs]; decide)
  have h2 := probeLoop_sim 0x55 n (by decide)
    { chip := { s.chip with regs := s.chip.regs.set RF69_REG_SYNCVALUE1 0xaa, phase := .idle },
      cur := [],
      log := s.log ++ [[(0xaf, 0), (0xaa, 0)], [(0x2f, 0), (0, 0xaa)]] }
    (by simp [hregs])
  have hres : ∃ s', rf69_init simChip (n + 1) sync_len sync_tol sync_val recv_packet_len s =
      .done s' ∧
      (∀ i, i < sync_len → s'.chip.regs.getD (RF69_REG_SYNCVALUE1 + i) 0 = sync_val.getD i 0) ∧
      s'.chip.regs.getD RF69_REG_PAYLOADLENGTH 0 = recv_packet_len := by
    unfold rf69_init
    simp only [h1, h2, e1, e3]
    refine ⟨_, rfl, ?_⟩
    have key := init_tail_sim sync_len hlen.2 sync_val recv_packet_len
    rw [e3] at key
    refine ⟨fun i hi => ?_, ?_⟩
    · rw [← hbyte i hi]
      refine (key _ ?_).1 i hi
      simp [sim_writeReg_regs, hregs]
    · refine (key _ ?_).2
      simp [sim_writeReg_regs, hregs]
  obtain ⟨s', hdone, hsv, hpl⟩ := hres
  refine ⟨s', hdone, hsv, ?_, hpl, ?_⟩
  · have := hsv 0 (by omega)
    simpa using this
  · obtain ⟨new, p, hlog, hp, hw⟩ := init_writes simChip (n + 1) _ _ _ _ s s' hdone
    refine ⟨new, hlog, ?_⟩
    intro r v hr1 hr2 hmem
    rw [hw, e1] at hmem
    simp only [RF69_REG_SYNCVALUE1] at hr1
    rcases List.mem_append.1 hmem with hmem | hmem
    · rcases hp _ hmem with h | h <;>
      · simp only [RF69_REG_SYNCVALUE1, Prod.mk.injEq] at h
        omega
    · simp only [configWrites, List.mem_append, List.mem_cons, List.mem_map, List.mem_range,
        Prod.mk.injEq, List.mem_singleton, List.not_mem_nil, or_false,
        RF69_REG_SYNCVALUE1] at hmem
      rcases hmem with (h | ⟨j, hj, h, _⟩) | h
      · omega
      · omega
      · omega

theorem C7_init_programs_sync_value_witness :
    ∃ s', rf69_init simChip 1 2 0 [0x2d, 0xd4] 5 (Bus.fresh (Sim.zero [] false 0)) = .done s' ∧
      s'.chip.regs.getD RF69_REG_SYNCVALUE1 0 = [0x2d, 0xd4].getD 0 0 ∧
      s'.chip.regs.getD RF69_REG_PAYLOADLENGTH 0 = 5 := by
  obtain ⟨s', h1, _, h3, h4, _⟩ := C7_init_programs_sync_value 1 2 0 [0x2d, 0xd4] 5
    (Bus.fresh (Sim.zero [] false 0)) (by decide) (by decide) (by decide) (by decide)
    (by simp [Bus.fresh, Sim.zero])
  exact ⟨s', h1, h3, h4⟩

/-! ## C5: the write of the sync-configuration register -/

theorem init_sim_done (fuel sync_len sync_tol : Nat) (sync_val : List Nat)
    (recv_packet_len : Nat) (s : Bus Sim) (hfuel : 1 ≤ fuel)
    (hregs : s.chip.regs.length = 128) :
    ∃ s', rf69_init simChip fuel sync_len sync_tol sync_val recv_packet_len s = .done s' := by
  obtain ⟨n, rfl⟩ : ∃ n, fuel = n + 1 := ⟨fuel - 1, by omega⟩
  have h1 := probeLoop_sim 0xaa n (by decide) s (by rw [hregs]; decide)
  have h2 := probeLoop_sim 0x55 n (by decide)
    { chip := { s.chip with regs := s.chip.regs.set RF69_REG_SYNCVALUE1 0xaa, phase := .idle },
      cur := [],
      log := s.log ++ [[(0xaf, 0), (0xaa, 0)], [(0x2f, 0), (0, 0xaa)]] }
    (by simp [hregs])
  unfold rf69_init
  simp only [h1, h2]
  exact ⟨_, rfl⟩

theorem init_done_syncconfig {σ : Type} (c : Chip σ) (fuel sync_len sync_tol : Nat)
    (sync_val : List Nat) (recv_packet_len : Nat) (s s' : Bus σ)
    (hlen : 1 ≤ sync_len ∧ sync_len ≤ 8) (htol : sync_tol < 256)
    (h : rf69_init c fuel sync_len sync_tol sync_val recv_packet_len s = .done s') :
    ∃ new, s'.log = s.log ++ new ∧
      (busWrites new).filter (fun w => w.1 = RF69_REG_SYNCCONFIG) =
        [(RF69_REG_SYNCCONFIG, 0x80 ||| ((sync_len - 1) <<< 3) ||| sync_tol)] := by
  obtain ⟨new, p, hlog, hp, hw⟩ := init_writes c fuel _ _ _ _ s s' h
  refine ⟨new, hlog, ?_⟩
  have e1 : sync_len % 256 = sync_len := Nat.mod_eq_of_lt (by omega)
  have e2 : sync_tol % 256 = sync_tol := Nat.mod_eq_of_lt htol
  have hpf : p.filter (fun w => w.1 = RF69_REG_SYNCCONFIG) = [] := by
    rw [List.filter_eq_nil_iff]
    intro w hwp
    rcases hp w hwp with rfl | rfl <;> simp
  rw [hw, e1, e2, List.filter_append, hpf, List.nil_append]
  simp only [configWrites, List.filter_append, syncPart_filter sync_len hlen.2]
  rw [syncconfig_value_eq sync_len (by omega) sync_tol htol hlen.1]
  simp

theorem init_spin_syncconfig {σ : Type} (c : Chip σ) (fuel sync_len sync_tol : Nat)
    (sync_val : List Nat) (recv_packet_len : Nat) (s s' : Bus σ)
    (h : rf69_init c fuel sync_len sync_tol sync_val recv_packet_len s = .spin s') :
    ∃ new, s'.log = s.log ++ new ∧
      (busWrites new).filter (fun w => w.1 = RF69_REG_SYNCCONFIG) = [] := by
  have hnone : ∀ (v : Nat) (pre : List Txn), (∀ t ∈ pre, isProbe v t) →
      (busWrites pre).filter (fun w => w.1 = RF69_REG_SYNCCONFIG) = [] := by
    intro v pre hpre
    rw [List.filter_eq_nil_iff]
    intro w hw
    rw [probe_writes hpre w hw]
    simp
  rcases init_spin c fuel _ _ _ _ s s' h with h1 | ⟨s1, h1, h2⟩
  · obtain ⟨x1, hx1, hp1, _⟩ := probeLoop_shape c 0xaa fuel s
    rw [h1] at hx1
    exact ⟨x1, hx1, hnone _ _ hp1⟩
  · obtain ⟨x1, hx1, hp1, _⟩ := probeLoop_shape c 0xaa fuel s
    obtain ⟨x2, hx2, hp2, _⟩ := probeLoop_shape c 0x55 fuel s1
    rw [h1] at hx1
    rw [h2] at hx2
    simp only [Outcome.bus] at hx1 hx2
    refine ⟨x1 ++ x2, by rw [hx2, hx1, List.append_assoc], ?_⟩
    rw [busWrites_append, List.filter_append, hnone _ _ hp1, hnone _ _ hp2]
    rfl

/-- C5: for every sync_len in 1..8 and every tolerance byte sync_tol,
`rf69_init` against the simulated chip returns (one unit of fuel is enough)
and its brackets write the sync-configuration register 0x2e exactly once, the
value written being 0x80 | ((sync_len - 1) << 3) | sync_tol.  Against an
arbitrary chip the same holds of every run that returns, and a run that is
still spinning in the start-up handshake has not written 0x2e at all: the
register is never written twice and never with another value. -/
theorem C5_syncconfig_written_once {σ : Type} (c : Chip σ) (fuel sync_len sync_tol : Nat)
    (sync_val : List Nat) (recv_packet_len : Nat) (s : Bus σ) (t : Bus Sim)
    (hlen : 1 ≤ sync_len ∧ sync_len ≤ 8) (htol : sync_tol < 256)
    (hfuel : 1 ≤ fuel) (hregs : t.chip.regs.length = 128) :
    (∃ t' new, rf69_init simChip fuel sync_len sync_tol sync_val recv_packet_len t = .done t' ∧
      t'.log = t.log ++ new ∧
      (busWrites new).filter (fun w => w.1 = RF69_REG_SYNCCONFIG) =
        [(RF69_REG_SYNCCONFIG, 0x80 ||| ((sync_len - 1) <<< 3) ||| sync_tol)]) ∧
    (∃ new,
      (rf69_init c fuel sync_len sync_tol sync_val recv_packet_len s).bus.log = s.log ++ new ∧
      ((∃ s', rf69_init c fuel sync_len sync_tol sync_val recv_packet_len s = .done s') →
        (busWrites new).filter (fun w => w.1 = RF69_REG_SYNCCONFIG) =
          [(RF69_REG_SYNCCONFIG, 0x80 ||| ((sync_len - 1) <<< 3) ||| sync_tol)]) ∧
      ((∃ s', rf69_init c fuel sync_len sync_tol sync_val recv_packet_len s = .spin s') →
        (busWrites new).filter (fun w => w.1 = RF69_REG_SYNCCONFIG) = [])) := by
  constructor
  · obtain ⟨t', ht⟩ := init_sim_done fuel sync_len sync_tol sync_val recv_packet_len t hfuel hregs
    obtain ⟨new, h1, h2⟩ := init_done_syncconfig simChip fuel sync_len sync_tol sync_val
      recv_packet_len t t' hlen htol ht
    exact ⟨t', new, ht, h1, h2⟩
  · cases hres : rf69_init c fuel sync_len sync_tol sync_val recv_packet_len s with
    | done s' =>
      obtain ⟨new, h1, h2⟩ := init_done_syncconfig c fuel sync_len sync_tol sync_val
        recv_packet_len s s' hlen htol hres
      exact ⟨new, h1, fun _ => h2, fun ⟨_, h⟩ => absurd h (by simp)⟩
    | spin s' =>
      obtain ⟨new, h1, h2⟩ := init_spin_syncconfig c fuel sync_len sync_tol sync_val
        recv_packet_len s s' hres
      exact ⟨new, h1, fun ⟨_, h⟩ => absurd h (by simp), fun _ => h2⟩

theorem C5_syncconfig_written_once_witness :
    (∃ t' new, rf69_init simChip 1 2 0 [0x2d, 0xd4] 5 (Bus.fresh (Sim.zero [] false 0)) =
        .done t' ∧
      t'.log = (Bus.fresh (Sim.zero [] false 0)).log ++ new ∧
      (busWrites new).filter (fun w => w.1 = RF69_REG_SYNCCONFIG) =
        [(RF69_REG_SYNCCONFIG, 0x80 ||| ((2 - 1) <<< 3) ||| 0)]) ∧
    (busWrites (rf69_init simChip 1 2 0 [0x2d, 0xd4] 5
        (Bus.fresh (Sim.zero [] false 0))).bus.log).filter
      (fun w => w.1 = RF69_REG_SYNCCONFIG) = [(RF69_REG_SYNCCONFIG, 0x88)] :=
  ⟨(C5_syncconfig_written_once deadChip 1 2 0 [0x2d, 0xd4] 5 (Bus.fresh ())
      (Bus.fresh (Sim.zero [] false 0)) (by decide) (by decide) (by decide)
      (by simp [Bus.fresh, Sim.zero])).1,
   by decide⟩

/-! ## rf69_receiveDone against the simulated chip -/

theorem take_succ_set (l : List Nat) (b x : Nat) (h : b < l.length) :
    (l.set b x).take (b + 1) = l.take b ++ [x] := by
  rw [List.take_succ, List.set_take, List.set_eq_of_length_le (by simp),
    List.getElem?_set_self (by omega)]
  rfl

theorem store_step (out q : List Nat) (b k x : Nat) (h : b < out.length) :
    (out.set b x).take (b + 1) ++ q.take k ++ (out.set b x).drop (b + 1 + k) =
      out.take b ++ (x :: q).take (k + 1) ++ out.drop (b + (k + 1)) := by
  rw [take_succ_set _ _ _ h, List.drop_set_of_lt _ _ (by omega)]
  simp [Nat.add_assoc, Nat.add_comm 1 k]

theorem busReads_append (a b : List Txn) : busReads (a ++ b) = busReads a ++ busReads b := by
  simp [busReads]

theorem drainLoop_sim (max_sz : Nat) (n b : Nat) (out : List Nat) (s : Bus Sim)
    (hn : max_sz - b ≤ n) (hb : b ≤ max_sz) (hout : max_sz ≤ out.length)
    (hbytes : ∀ v ∈ s.chip.fifo, v < 256) :
    (drainLoop simChip max_sz n b out s).1 = b + min s.chip.fifo.length (max_sz - b) ∧
    (drainLoop simChip max_sz n b out s).2.1 =
      out.take b ++ s.chip.fifo.take (min s.chip.fifo.length (max_sz - b)) ++
        out.drop (b + min s.chip.fifo.length (max_sz - b)) ∧
    (drainLoop simChip max_sz n b out s).2.2.chip.fifo =
      s.chip.fifo.drop (min s.chip.fifo.length (max_sz - b)) ∧
    ∃ new, (drainLoop simChip max_sz n b out s).2.2.log = s.log ++ new ∧
      (busReads new).filter (fun x => x.1 = RF69_REG_FIFO) =
        (s.chip.fifo.take (min s.chip.fifo.length (max_sz - b))).map
          (fun v => (RF69_REG_FIFO, v)) := by
  induction n generalizing b out s with
  | zero =>
    have e : max_sz - b = 0 := by omega
    simp only [drainLoop, e, Nat.min_zero, Nat.add_zero, List.take_zero, List.append_nil,
      List.take_append_drop, List.drop_zero, List.map_nil, true_and]
    exact ⟨[], by simp, rfl⟩
  | succ n ih =>
    by_cases hlt : b < max_sz
    · cases hq : s.chip.fifo with
      | nil =>
        have hflag : ¬ (s.chip.irqflags2 &&& 0x20 ≠ 0) := by
          rw [irqflags2_fifo, hq]
          simp
        simp only [drainLoop, hlt, if_true, sim_readIrq, hflag, if_false, List.length_nil,
          Nat.zero_min, Nat.add_zero, List.take_nil, List.append_nil, List.take_append_drop,
          List.drop_nil, hq, List.map_nil, true_and]
        exact ⟨_, rfl, by simp [busReads, Txn.reads]⟩
      | cons x q =>
        have hflag : s.chip.irqflags2 &&& 0x20 ≠ 0 := by
          rw [irqflags2_fifo, hq]
          simp
        have hx : x % 256 = x := Nat.mod_eq_of_lt (hbytes x (by rw [hq]; simp))
        have hstep : drainLoop simChip max_sz (n + 1) b out s =
            drainLoop simChip max_sz n (b + 1) (out.set b x)
              (readReg simChip RF69_REG_FIFO (readReg simChip RF69_REG_IRQFLAGS2 s).2).2 := by
          simp only [drainLoop, hlt, if_true, sim_readIrq, sim_readFifo, hq,
            List.headD_cons, hx]
          rw [if_pos hflag]
        have hfifo : (readReg simChip RF69_REG_FIFO
            (readReg simChip RF69_REG_IRQFLAGS2 s).2).2.chip.fifo = q := by
          rw [sim_readIrq, sim_readFifo]
          simp [hq]
        have hlog : (readReg simChip RF69_REG_FIFO
            (readReg simChip RF69_REG_IRQFLAGS2 s).2).2.log =
            s.log ++ [[(RF69_REG_IRQFLAGS2, 0), (0, s.chip.irqflags2)],
              [(RF69_REG_FIFO, 0), (0, x)]] := by
          rw [sim_readIrq, sim_readFifo]
          simp [hq, hx]
        obtain ⟨h1, h2, h3, new, h4, h5⟩ := ih (b + 1) (out.set b x)
          (readReg simChip RF69_REG_FIFO (readReg simChip RF69_REG_IRQFLAGS2 s).2).2
          (by omega) (by omega) (by rw [List.length_set]; exact hout)
          (by rw [hfifo]; intro v hv; exact hbytes v (by rw [hq]; exact List.mem_cons_of_mem _ hv))
        rw [hfifo] at h1 h2 h3 h5
        have ek : min (x :: q).length (max_sz - b) = min q.length (max_sz - (b + 1)) + 1 := by
          simp only [List.length_cons]
          omega
        rw [hstep, ek]
        refine ⟨by rw [h1]; omega, ?_, ?_, ?_⟩
        · rw [h2]
          exact store_step out q b _ x (by omega)
        · rw [h3]
          rfl
        · refine ⟨[[(RF69_REG_IRQFLAGS2, 0), (0, s.chip.irqflags2)],
            [(RF69_REG_FIFO, 0), (0, x)]] ++ new, ?_, ?_⟩
          · rw [h4, hlog, List.append_assoc]
          · rw [busReads_append, List.filter_append, h5]
            simp [busReads, Txn.reads]
    · have e : max_sz - b = 0 := by omega
      simp only [drainLoop, hlt, if_false, e, Nat.min_zero, Nat.add_zero, List.take_zero,
        List.append_nil, List.take_append_drop, List.drop_zero, List.map_nil, true_and]
      exact ⟨[], by simp, rfl⟩

/-- C4: against the simulated chip with PayloadReady set and the byte list q in
its FIFO (FifoNotEmpty shows exactly while the FIFO holds a byte), for every
capacity c in 0..255 and every buffer of at least c bytes, `rf69_receiveDone`
returns true, sets `*sz` to min(length q, c), stores the first min(length q, c)
bytes of q at the start of the buffer in FIFO order and leaves the rest of the
buffer alone, reads the FIFO register exactly min(length q, c) times (those
bytes, in order), leaves the remaining bytes of q in the FIFO, and writes no
register. -/
theorem C4_receive_drains_min (q out : List Nat) (cap : Nat) (s : Bus Sim)
    (hq : s.chip.fifo = q) (hbytes : ∀ v ∈ q, v < 256) (hready : s.chip.payloadReady = true)
    (hcap : cap ≤ 255) (hout : cap ≤ out.length) :
    (rf69_receiveDone simChip out cap s).1 = true ∧
    (rf69_receiveDone simChip out cap s).2.2.1 = min q.length cap ∧
    (rf69_receiveDone simChip out cap s).2.1 =
      q.take (min q.length cap) ++ out.drop (min q.length cap) ∧
    (rf69_receiveDone simChip out cap s).2.2.2.chip.fifo = q.drop (min q.length cap) ∧
    ∃ new, (rf69_receiveDone simChip out cap s).2.2.2.log = s.log ++ new ∧
      (busReads new).filter (fun x => x.1 = RF69_REG_FIFO) =
        (q.take (min q.length cap)).map (fun v => (RF69_REG_FIFO, v)) ∧
      busWrites new = [] := by
  have ecap : cap % 256 = cap := Nat.mod_eq_of_lt (by omega)
  have hflag : s.chip.irqflags2 &&& 4 ≠ 0 := (irqflags2_ready _).2 hready
  have hfifo1 : (readReg simChip RF69_REG_IRQFLAGS2 s).2.chip.fifo = q := by
    rw [sim_readIrq]
    exact hq
  have hlog1 : (readReg simChip RF69_REG_IRQFLAGS2 s).2.log =
      s.log ++ [[(RF69_REG_IRQFLAGS2, 0), (0, s.chip.irqflags2)]] := by
    rw [sim_readIrq]
  have hval1 : (readReg simChip RF69_REG_IRQFLAGS2 s).1 = s.chip.irqflags2 := by
    rw [sim_readIrq]
  have hres : rf69_receiveDone simChip out cap s =
      (true, (drainLoop simChip cap cap 0 out (readReg simChip RF69_REG_IRQFLAGS2 s).2).2.1,
        (drainLoop simChip cap cap 0 out (readReg simChip RF69_REG_IRQFLAGS2 s).2).1 % 256,
        (drainLoop simChip cap cap 0 out (readReg simChip RF69_REG_IRQFLAGS2 s).2).2.2) := by
    simp only [rf69_receiveDone, ecap, hval1]
    rw [if_pos hflag]
  obtain ⟨h1, h2, h3, new, h4, h5⟩ := drainLoop_sim cap cap 0 out
    (readReg simChip RF69_REG_IRQFLAGS2 s).2 (by omega) (Nat.zero_le _) hout
    (by rw [hfifo1]; exact hbytes)
  rw [hfifo1] at h1 h2 h3 h5
  simp only [Nat.zero_add, Nat.sub_zero, List.take_zero, List.nil_append] at h1 h2 h3 h5
  have hlog : (rf69_receiveDone simChip out cap s).2.2.2.log =
      s.log ++ ([[(RF69_REG_IRQFLAGS2, 0), (0, s.chip.irqflags2)]] ++ new) := by
    rw [hres]
    simp only []
    rw [h4, hlog1, List.append_assoc]
  refine ⟨by rw [hres], ?_, ?_, ?_, _, hlog, ?_, ?_⟩
  · rw [hres]
    simp only []
    rw [h1]
    exact Nat.mod_eq_of_lt (by omega)
  · rw [hres]
    exact h2
  · rw [hres]
    exact h3
  · rw [busReads_append, List.filter_append, h5]
    simp [busReads, Txn.reads]
  · obtain ⟨new2, hn2, hw2⟩ := receiveDone_readsOnly simChip out cap s
    rw [hlog] at hn2
    rw [List.append_cancel_left hn2]
    exact hw2

theorem C4_receive_drains_min_witness :
    (rf69_receiveDone simChip [0, 0, 0, 0, 0, 0, 0, 0] 8 (Bus.fresh (Sim.zero [1, 2, 3] true 0))).1
      = true ∧
    (rf69_receiveDone simChip [0, 0, 0, 0, 0, 0, 0, 0] 8
      (Bus.fresh (Sim.zero [1, 2, 3] true 0))).2.2.1 = min [1, 2, 3].length 8 ∧
    (rf69_receiveDone simChip [0, 0, 0, 0, 0, 0, 0, 0] 8
      (Bus.fresh (Sim.zero [1, 2, 3] true 0))).2.1 =
        [1, 2, 3].take (min [1, 2, 3].length 8) ++
          [0, 0, 0, 0, 0, 0, 0, 0].drop (min [1, 2, 3].length 8) :=
  have h := C4_receive_drains_min [1, 2, 3] [0, 0, 0, 0, 0, 0, 0, 0] 8
    (Bus.fresh (Sim.zero [1, 2, 3] true 0)) rfl (by decide) rfl (by decide) (by decide)
  ⟨h.1, h.2.1, h.2.2.1⟩

/-! ## rf69_transmit against the simulated chip -/

theorem sim_openFifo (s : Bus Sim) :
    (SPI_transfer simChip (RF69_REG_FIFO ||| 0x80) (SS_LOW simChip s)).2 =
      { chip := { s.chip with phase := .write RF69_REG_FIFO }, cur := [(0x80, 0)], log := s.log } := by
  simp [SPI_transfer, SS_LOW, simChip, Sim.transfer]

theorem sim_ssHigh (s : Bus Sim) :
    SS_HIGH simChip s =
      { chip := { s.chip with phase := .idle }, cur := [], log := s.log ++ [s.cur] } := rfl

theorem fillLoop_sim (data : List Nat) (len : Nat) (hlen : len ≤ 255) (fuel pos : Nat)
    (s : Bus Sim) (hph : s.chip.phase = .write RF69_REG_FIFO) (hpos : pos ≤ len)
    (hfuel : len - pos ≤ fuel) :
    fillLoop simChip data len fuel pos s = .done
      { chip := { s.chip with
          fifo := s.chip.fifo ++ (List.range' pos (len - pos)).map (fun i => data.getD i 0 % 256) },
        cur := s.cur ++ (List.range' pos (len - pos)).map (fun i => (data.getD i 0 % 256, 0)),
        log := s.log } := by
  induction fuel generalizing pos s with
  | zero =>
    have e : len - pos = 0 := by omega
    have : ¬ pos < len := by omega
    simp [fillLoop, this, e]
  | succ n ih =>
    by_cases hlt : pos < len
    · have hp : (pos + 1) % 256 = pos + 1 := Nat.mod_eq_of_lt (by omega)
      have e : len - pos = (len - (pos + 1)) + 1 := by omega
      have hstep : (SPI_transfer simChip (data.getD pos 0) s).2 =
          { chip := { s.chip with fifo := s.chip.fifo ++ [data.getD pos 0 % 256] },
            cur := s.cur ++ [(data.getD pos 0 % 256, 0)], log := s.log } := by
        simp [SPI_transfer, simChip, Sim.transfer, hph]
      simp only [fillLoop, hlt, if_true, hp]
      rw [hstep, ih (pos + 1)
        { chip := { s.chip with fifo := s.chip.fifo ++ [data.getD pos 0 % 256] },
          cur := s.cur ++ [(data.getD pos 0 % 256, 0)], log := s.log }
        hph (by omega) (by omega), e, List.range'_succ]
      simp
    · have e : len - pos = 0 := by omega
      simp [fillLoop, hlt, e]

theorem pollVals_zero (m : Sim) (h : m.pending = 0) : pollVals m = [m.irqflags2] := by
  simp [pollVals, h, Sim.irqflags2, List.range_succ]

theorem pollVals_succ (m : Sim) (h : m.pending ≠ 0) :
    pollVals m = m.irqflags2 :: pollVals { m with pending := m.pending - 1, phase := .idle } := by
  obtain ⟨k, hk⟩ : ∃ k, m.pending = k + 1 := ⟨m.pending - 1, by omega⟩
  simp only [pollVals, hk, List.range_succ_eq_map (k + 1), List.map_cons, List.map_map,
    Nat.add_sub_cancel, Nat.sub_zero]
  refine congrArg₂ _ ?_ ?_
  · simp [Sim.irqflags2, hk]
  · apply List.map_congr_left
    intro j _
    simp [Sim.irqflags2, Function.comp]

theorem pollVals_shape (m : Sim) :
    ∃ vs v, pollVals m = vs ++ [v] ∧ (∀ x ∈ vs, x &&& 8 = 0) ∧ v &&& 8 ≠ 0 ∧
      vs.length = m.pending := by
  obtain ⟨k, hk⟩ : ∃ k, m.pending = k := ⟨_, rfl⟩
  induction k generalizing m with
  | zero =>
    refine ⟨[], m.irqflags2, by simp [pollVals_zero m hk], by simp, ?_, by simp [hk]⟩
    intro h
    exact (irqflags2_sent m).1 h hk
  | succ k ih =>
    have hne : m.pending ≠ 0 := by omega
    obtain ⟨vs, v, h1, h2, h3, h4⟩ := ih { m with pending := m.pending - 1, phase := .idle }
      (by simp [hk])
    refine ⟨m.irqflags2 :: vs, v, by rw [pollVals_succ m hne, h1]; rfl, ?_, h3, ?_⟩
    · intro x hx
      rcases List.mem_cons.1 hx with rfl | hx
      · exact (irqflags2_sent m).2 hne
      · exact h2 x hx
    · simp only [List.length_cons, h4]
      omega

theorem sentLoop_sim (fuel : Nat) (s : Bus Sim) (hfuel : s.chip.pending < fuel) :
    sentLoop simChip fuel s = .done
      { chip := { s.chip with pending := 0, phase := .idle },
        cur := [],
        log := s.log ++ (pollVals s.chip).map (fun x => [(RF69_REG_IRQFLAGS2, 0), (0, x)]) } := by
  induction fuel generalizing s with
  | zero => omega
  | succ n ih =>
    by_cases hp : s.chip.pending = 0
    · have hflag : ¬ (s.chip.irqflags2 &&& 8 = 0) := by
        rw [irqflags2_sent]
        simp [hp]
      simp only [sentLoop, sim_readIrq]
      rw [if_neg hflag, pollVals_zero _ hp]
      simp [hp]
    · have hflag : s.chip.irqflags2 &&& 8 = 0 := (irqflags2_sent _).2 hp
      simp only [sentLoop, sim_readIrq]
      rw [if_pos hflag, ih _ (by simp only []; omega), pollVals_succ _ hp]
      simp

theorem range_map_getD (l : List Nat) (h : ∀ d ∈ l, d < 256) :
    (List.range' 0 l.length).map (fun i => l.getD i 0 % 256) = l := by
  apply List.ext_getElem
  · simp
  · intro i h1 h2
    have hi : i < l.length := by simpa using h1
    simp only [List.getElem_map, List.getElem_range', Nat.zero_add, Nat.one_mul]
    rw [List.getD_eq_getElem _ _ hi]
    exact Nat.mod_eq_of_lt (h _ (List.getElem_mem _))

theorem mem_busWrites {w : Nat × Nat} {l : List Txn} :
    w ∈ busWrites l ↔ ∃ t ∈ l, w ∈ Txn.writes t := by
  simp [busWrites]

theorem mem_busReads {r : Nat × Nat} {l : List Txn} :
    r ∈ busReads l ↔ ∃ t ∈ l, r ∈ Txn.reads t := by
  simp [busReads]

theorem transmit_sim_sync (fuel : Nat) (data : List Nat) (len : Nat) (s : Bus Sim)
    (hlen : len ≤ 255) (hfuel : len ≤ fuel ∧ s.chip.pending < fuel) :
    ∃ s' vs v, rf69_transmit simChip fuel data len false s = .done s' ∧
      s'.log = s.log ++
        ([[(0x81, 0), (0x04, 0)], [(0xa8, 0), (0x10, 0)],
          [(0x38, 0), (0, s.chip.regs.getD 0x38 0 % 256)],
          [(0xb8, 0), (len, 0)],
          (0x80, 0) :: (List.range' 0 len).map (fun i => (data.getD i 0 % 256, 0)),
          [(0x81, 0), (0x0c, 0)]] ++
        (vs ++ [v]).map (fun x => [(0x28, 0), (0, x)]) ++
        [[(0xb8, 0), (s.chip.regs.getD 0x38 0 % 256, 0)], [(0x81, 0), (0x10, 0)]]) ∧
      (∀ x ∈ vs, x &&& 8 = 0) ∧ v &&& 8 ≠ 0 ∧ vs.length = s.chip.pending ∧
      s'.chip.regs = (((((s.chip.regs.set 1 4).set 0x28 0x10).set 0x38 len).set 1 0x0c).set 0x38
        (s.chip.regs.getD 0x38 0 % 256)).set 1 0x10 := by
  have w1 := fun v s => sim_writeReg 1 v (by decide) s
  have w28 := fun v s => sim_writeReg 0x28 v (by decide) s
  have w38 := fun v s => sim_writeReg 0x38 v (by decide) s
  have r38 := fun s => sim_readReg 0x38 (by decide) (by decide) s
  have hfill := fun s h =>
    fillLoop_sim data len hlen fuel 0 s h (Nat.zero_le _) (by omega)
  have hpm : (((s.chip.regs.set 1 (4 % 256)).set 40 (16 % 256)).getD 56 0) =
      s.chip.regs.getD 56 0 := by
    rw [getD_set_ne _ _ _ _ (by decide), getD_set_ne _ _ _ _ (by decide)]
  unfold rf69_transmit
  simp only [RF69_REG_OPMODE, RF69_MODE_STANDBY, RF69_REG_IRQFLAGS2, RF69_REG_SYNCCONFIG,
    RF69_REG_PAYLOADLENGTH, RF69_MODE_TRANSMIT, RF69_MODE_RECEIVE, Bool.false_eq_true, if_false,
    w1, w28, w38, r38, sim_openFifo, hfill, sim_ssHigh, sentLoop_sim, hfuel.2, hpm,
    Nat.mod_mod, Nat.mod_eq_of_lt (show len < 256 by omega)]
  generalize hpv : pollVals _ = pv
  obtain ⟨vs, v, h1, h2, h3, h4⟩ : ∃ vs v, pv = vs ++ [v] ∧ (∀ x ∈ vs, x &&& 8 = 0) ∧
      v &&& 8 ≠ 0 ∧ vs.length = s.chip.pending := by
    rw [← hpv]
    exact pollVals_shape _
  refine ⟨_, vs, v, rfl, ?_, h2, h3, h4, ?_⟩
  · simp [h1]
  · simp

theorem transmit_sim_nosync (fuel : Nat) (data : List Nat) (len : Nat) (s : Bus Sim)
    (hlen : len ≤ 255) (hfuel : len ≤ fuel ∧ s.chip.pending < fuel) :
    ∃ s', rf69_transmit simChip fuel data len true s = .done s' ∧
      s'.chip.regs = ((((((((s.chip.regs.set 1 4).set 0x28 0x10).set 0x2e 0).set 0x38 len).set 1
        0x0c).set 1 0x04).set 0x2e (s.chip.regs.getD 0x2e 0 % 256)).set 0x38
          (s.chip.regs.getD 0x38 0 % 256)).set 1 0x10 := by
  have w1 := fun v s => sim_writeReg 1 v (by decide) s
  have w28 := fun v s => sim_writeReg 0x28 v (by decide) s
  have w2e := fun v s => sim_writeReg 0x2e v (by decide) s
  have w38 := fun v s => sim_writeReg 0x38 v (by decide) s
  have r38 := fun s => sim_readReg 0x38 (by decide) (by decide) s
  have r2e := fun s => sim_readReg 0x2e (by decide) (by decide) s
  have hfill := fun s h =>
    fillLoop_sim data len hlen fuel 0 s h (Nat.zero_le _) (by omega)
  have hpm : ((((s.chip.regs.set 1 (4 % 256)).set 40 (16 % 256)).set 46 (0 % 256)).getD 56 0) =
      s.chip.regs.getD 56 0 := by
    rw [getD_set_ne _ _ _ _ (by decide), getD_set_ne _ _ _ _ (by decide),
      getD_set_ne _ _ _ _ (by decide)]
  have hsm : (((s.chip.regs.set 1 (4 % 256)).set 40 (16 % 256)).getD 46 0) =
      s.chip.regs.getD 46 0 := by
    rw [getD_set_ne _ _ _ _ (by decide), getD_set_ne _ _ _ _ (by decide)]
  unfold rf69_transmit
  simp only [RF69_REG_OPMODE, RF69_MODE_STANDBY, RF69_REG_IRQFLAGS2, RF69_REG_SYNCCONFIG,
    RF69_REG_PAYLOADLENGTH, RF69_MODE_TRANSMIT, RF69_MODE_RECEIVE, if_true,
    w1, w28, w2e, w38, r38, r2e, sim_openFifo, hfill, sim_ssHigh, sentLoop_sim, hfuel.2, hpm, hsm,
    Nat.mod_mod, Nat.mod_eq_of_lt (show len < 256 by omega)]
  refine ⟨_, rfl, ?_⟩
  simp

/-- C6: against the simulated chip whose payload-length register holds p and
whose PacketSent flag shows after finitely many polls, `rf69_transmit(data,
len, false)` with len <= 66 bytes of data returns and puts exactly these
brackets on the bus, in this order: 0x01 <- Standby (0x04); 0x28 <- 0x10;
a read of 0x38 returning p; 0x38 <- len; one bracket carrying 0x80 and then
data[0..len); 0x01 <- Transmit (0x0C); reads of 0x28, all with bit 3 clear
except the last, which has bit 3 set; 0x38 <- p; 0x01 <- Receive (0x10).
No bracket reads or writes the sync-configuration register 0x2e. -/
theorem C6_transmit_bus_sequence (fuel : Nat) (data : List Nat) (len : Nat) (s : Bus Sim)
    (hdata : data.length = len ∧ ∀ d ∈ data, d < 256) (hlen : len ≤ 66)
    (hp : s.chip.regs.getD RF69_REG_PAYLOADLENGTH 0 < 256)
    (hfuel : len ≤ fuel ∧ s.chip.pending < fuel) :
    ∃ s' vs v new, rf69_transmit simChip fuel data len false s = .done s' ∧
      s'.log = s.log ++ new ∧
      new =
        [[(0x81, 0), (0x04, 0)], [(0xa8, 0), (0x10, 0)],
         [(0x38, 0), (0, s.chip.regs.getD RF69_REG_PAYLOADLENGTH 0)],
         [(0xb8, 0), (len, 0)],
         (0x80, 0) :: data.map (fun d => (d, 0)),
         [(0x81, 0), (0x0c, 0)]] ++
        (vs ++ [v]).map (fun x => [(0x28, 0), (0, x)]) ++
        [[(0xb8, 0), (s.chip.regs.getD RF69_REG_PAYLOADLENGTH 0, 0)], [(0x81, 0), (0x10, 0)]] ∧
      (∀ x ∈ vs, x &&& 8 = 0) ∧ v &&& 8 ≠ 0 ∧ vs.length = s.chip.pending ∧
      (∀ w ∈ busWrites new, w.1 ≠ RF69_REG_SYNCCONFIG) ∧
      (∀ r ∈ busReads new, r.1 ≠ RF69_REG_SYNCCONFIG) := by
  obtain ⟨s', vs, v, hdone, hlog, h2, h3, h4, _⟩ :=
    transmit_sim_sync fuel data len s (by omega) hfuel
  have hbytes : (List.range' 0 len).map (fun i => (data.getD i 0 % 256, 0)) =
      data.map (fun d => (d, 0)) := by
    have := congrArg (List.map (fun d => (d, 0))) (range_map_getD data hdata.2)
    rw [hdata.1, List.map_map] at this
    exact this
  have hp' : s.chip.regs.getD 56 0 % 256 = s.chip.regs.getD 56 0 := Nat.mod_eq_of_lt hp
  rw [hbytes, hp'] at hlog
  refine ⟨s', vs, v, _, hdone, hlog, rfl, h2, h3, h4, ?_, ?_⟩
  · intro w hw
    obtain ⟨t, ht, hwt⟩ := mem_busWrites.1 hw
    simp only [List.mem_append, List.mem_cons, List.mem_map, List.mem_singleton,
      List.not_mem_nil, or_false] at ht
    rcases ht with ((rfl | rfl | rfl | rfl | rfl | rfl) | ⟨x, _, rfl⟩) | (rfl | rfl) <;>
      simp [Txn.writes, Txn.sent, sentWrites] at hwt <;>
      (try obtain ⟨_, _, rfl⟩ := hwt) <;> simp
  · intro r hr
    obtain ⟨t, ht, hrt⟩ := mem_busReads.1 hr
    simp only [List.mem_append, List.mem_cons, List.mem_map, List.mem_singleton,
      List.not_mem_nil, or_false] at ht
    rcases ht with ((rfl | rfl | rfl | rfl | rfl | rfl) | ⟨x, _, rfl⟩) | (rfl | rfl) <;>
      simp [Txn.reads] at hrt <;> (try subst hrt) <;> simp

set_option maxRecDepth 100000 in
theorem C6_transmit_bus_sequence_witness :
    (rf69_transmit simChip 3 [0xaa, 0xbb] 2 false (Bus.fresh (Sim.zero [] false 2))).bus.log =
      [[(0x81, 0), (0x04, 0)], [(0xa8, 0), (0x10, 0)], [(0x38, 0), (0, 0)], [(0xb8, 0), (2, 0)],
       [(0x80, 0), (0xaa, 0), (0xbb, 0)], [(0x81, 0), (0x0c, 0)],
       [(0x28, 0), (0, 0x20)], [(0x28, 0), (0, 0x20)], [(0x28, 0), (0, 0x28)],
       [(0xb8, 0), (0, 0)], [(0x81, 0), (0x10, 0)]] ∧
    ∃ s' vs v new,
      rf69_transmit simChip 3 [0xaa, 0xbb] 2 false (Bus.fresh (Sim.zero [] false 2)) = .done s' ∧
      s'.log = (Bus.fresh (Sim.zero [] false 2)).log ++ new ∧
      new =
        [[(0x81, 0), (0x04, 0)], [(0xa8, 0), (0x10, 0)],
         [(0x38, 0), (0, (Bus.fresh (Sim.zero [] false 2)).chip.regs.getD RF69_REG_PAYLOADLENGTH 0)],
         [(0xb8, 0), (2, 0)],
         (0x80, 0) :: [0xaa, 0xbb].map (fun d => (d, 0)),
         [(0x81, 0), (0x0c, 0)]] ++
        (vs ++ [v]).map (fun x => [(0x28, 0), (0, x)]) ++
        [[(0xb8, 0), ((Bus.fresh (Sim.zero [] false 2)).chip.regs.getD RF69_REG_PAYLOADLENGTH 0, 0)],
         [(0x81, 0), (0x10, 0)]] ∧
      (∀ x ∈ vs, x &&& 8 = 0) ∧ v &&& 8 ≠ 0 ∧
      vs.length = (Bus.fresh (Sim.zero [] false 2)).chip.pending ∧
      (∀ w ∈ busWrites new, w.1 ≠ RF69_REG_SYNCCONFIG) ∧
      (∀ r ∈ busReads new, r.1 ≠ RF69_REG_SYNCCONFIG) :=
  ⟨by decide,
   C6_transmit_bus_sequence 3 [0xaa, 0xbb] 2 (Bus.fresh (Sim.zero [] false 2))
     (by decide) (by decide) (by decide) (by decide)⟩

theorem wf_getD_lt (m : Sim) (h : m.wf) (r : Nat) : m.regs.getD r 0 < 256 := by
  by_cases hr : r < m.regs.length
  · rw [List.getD_eq_getElem _ _ hr]
    exact h.2.1 _ (List.getElem_mem _)
  · rw [List.getD_eq_default _ _ (by omega)]
    decide

/-- C2: against the simulated chip (registers read back the last value
written, PacketSent shows after finitely many polls), for every data, every
len <= 255 and both values of no_sync, `rf69_transmit` returns, and afterwards
the payload-length register 0x38 and the sync-configuration register 0x2e hold
the values they held before the call; when no_sync is false no bracket of the
call writes register 0x2e. -/
theorem C2_transmit_restores_registers (fuel : Nat) (data : List Nat) (len : Nat)
    (no_sync : Bool) (s : Bus Sim) (hlen : len ≤ 255) (hwf : s.chip.wf)
    (hfuel : len ≤ fuel ∧ s.chip.pending < fuel) :
    ∃ s', rf69_transmit simChip fuel data len no_sync s = .done s' ∧
      s'.chip.regs.getD RF69_REG_PAYLOADLENGTH 0 = s.chip.regs.getD RF69_REG_PAYLOADLENGTH 0 ∧
      s'.chip.regs.getD RF69_REG_SYNCCONFIG 0 = s.chip.regs.getD RF69_REG_SYNCCONFIG 0 ∧
      (no_sync = false →
        ∃ new, s'.log = s.log ++ new ∧ ∀ w ∈ busWrites new, w.1 ≠ RF69_REG_SYNCCONFIG) := by
  have hp : s.chip.regs.getD 0x38 0 % 256 = s.chip.regs.getD 0x38 0 :=
    Nat.mod_eq_of_lt (wf_getD_lt _ hwf _)
  have hs : s.chip.regs.getD 0x2e 0 % 256 = s.chip.regs.getD 0x2e 0 :=
    Nat.mod_eq_of_lt (wf_getD_lt _ hwf _)
  have hl : s.chip.regs.length = 128 := hwf.1
  cases no_sync with
  | false =>
    obtain ⟨s', vs, v, hdone, hlog, _, _, _, hregs⟩ := transmit_sim_sync fuel data len s hlen hfuel
    refine ⟨s', hdone, ?_, ?_, fun _ => ⟨_, hlog, ?_⟩⟩
    · rw [hregs, hp]
      simp only [RF69_REG_PAYLOADLENGTH]
      rw [getD_set_ne _ _ _ _ (by decide), getD_set_eq _ _ _ (by simp [hl])]
    · rw [hregs]
      simp only [RF69_REG_SYNCCONFIG]
      iterate 6 rw [getD_set_ne _ _ _ _ (by decide)]
    · intro w hw
      obtain ⟨t, ht, hwt⟩ := mem_busWrites.1 hw
      simp only [List.mem_append, List.mem_cons, List.mem_map, List.mem_singleton,
        List.not_mem_nil, or_false] at ht
      rcases ht with ((rfl | rfl | rfl | rfl | rfl | rfl) | ⟨x, _, rfl⟩) | (rfl | rfl) <;>
        simp [Txn.writes, Txn.sent, sentWrites] at hwt <;>
        (try obtain ⟨_, _, rfl⟩ := hwt) <;> simp
  | true =>
    obtain ⟨s', hdone, hregs⟩ := transmit_sim_nosync fuel data len s hlen hfuel
    refine ⟨s', hdone, ?_, ?_, fun h => absurd h (by simp)⟩
    · rw [hregs, hp]
      simp only [RF69_REG_PAYLOADLENGTH]
      rw [getD_set_ne _ _ _ _ (by decide), getD_set_eq _ _ _ (by simp [hl])]
    · rw [hregs, hs]
      simp only [RF69_REG_SYNCCONFIG]
      rw [getD_set_ne _ _ _ _ (by decide), getD_set_ne _ _ _ _ (by decide),
        getD_set_eq _ _ _ (by simp [hl])]

set_option maxRecDepth 100000 in
theorem C2_transmit_restores_registers_witness :
    ∃ s', rf69_transmit simChip 3 [0xaa, 0xbb] 2 true
        (rf69_init simChip 1 2 0 [0x2d, 0xd4] 5 (Bus.fresh (Sim.zero [] false 2))).bus = .done s' ∧
      s'.chip.regs.getD RF69_REG_PAYLOADLENGTH 0 = 5 ∧
      s'.chip.regs.getD RF69_REG_SYNCCONFIG 0 = 0x88 := by
  obtain ⟨s', h1, h2, h3, _⟩ := C2_transmit_restores_registers 3 [0xaa, 0xbb] 2 true
    (rf69_init simChip 1 2 0 [0x2d, 0xd4] 5 (Bus.fresh (Sim.zero [] false 2))).bus
    (by decide) (by decide) (by decide)
  exact ⟨s', h1, h2.trans (by decide), h3.trans (by decide)⟩

end RF69
